import Mathlib

/-!
# workload-foo: the bucket migration handler and the provider readiness gates

A shallow embedding of `src/main.go`.

* `moveHandler` (lines 64-148) is embedded as a pure function from the two
  buckets and a fault schedule to the final buckets, the log of store
  operations performed, and the HTTP answer.
* The two `operation` closures of `main` (lines 211-228 and 237-269) are
  embedded as functions from the outcome of the library calls of one attempt
  to the classification of that attempt, and `backoff.Retry` as the loop that
  drives them.

The blob store (`gocloud.dev/blob`) and the retry loop
(`github.com/cenkalti/backoff`) are libraries, not code of the repository;
they are modelled from the specification.
-/

namespace WorkloadFoo

/-! ## Object store model -/

/-- An object key. -/
abbrev Key := String

/-- The content of an object. -/
abbrev Bytes := List Nat

/-- Modelled from the spec: the bucket behind a `*blob.Bucket` handle (section 4.3,
"ObjectStore"), a finite map from key to bytes kept as an association list. -/
abbrev Bucket := List (Key × Bytes)

/-- Modelled from the spec: `list()`, the keys of a bucket in the order the store
yields them. -/
def Bucket.keys (b : Bucket) : List Key := b.map Prod.fst

/-- Modelled from the spec: the bytes `openReader(key)` streams, `none` when the key
does not exist (`NotFound`). -/
def Bucket.read (b : Bucket) (k : Key) : Option Bytes := b.lookup k

/-- Modelled from the spec: `delete(key)` on an existing key: the key is absent
afterwards, every other object is untouched. -/
def Bucket.delete (b : Bucket) (k : Key) : Bucket := b.filter (fun e => e.1 != k)

/-- Modelled from the spec: where a new object appears in the listing of its bucket. The
specification leaves the listing order to the store; the model keeps a new key at its place
in the lexicographic order of keys. -/
def Bucket.insert (k : Key) (v : Bytes) : Bucket → Bucket
  | [] => [(k, v)]
  | (k', v') :: rest =>
    if k.data < k'.data then (k, v) :: (k', v') :: rest else (k', v') :: Bucket.insert k v rest

/-- Modelled from the spec: the effect of closing an `openWriter(key)` sink that
received `v`: the object under `k` is `v`, replacing any earlier object of that key. -/
def Bucket.write (b : Bucket) (k : Key) (v : Bytes) : Bucket :=
  Bucket.insert k v (b.delete k)

/-- The two package-level bucket handles, `awsBucket` and `gcpBucket` (lines 24-25). -/
inductive Store where
  | aws
  | gcp
  deriving DecidableEq, Repr

/-- The content of the two buckets. -/
structure State where
  aws : Bucket
  gcp : Bucket
  deriving DecidableEq, Repr

/-- The bucket behind a handle. -/
def State.get (st : State) : Store → Bucket
  | .aws => st.aws
  | .gcp => st.gcp

/-- Replace the bucket behind a handle. -/
def State.set (st : State) : Store → Bucket → State
  | .aws, b => { st with aws := b }
  | .gcp, b => { st with gcp := b }

/-! ## Store operations, faults and the operation log -/

/-- The six store calls of one loop iteration of `moveHandler` (lines 105-139). -/
inductive Step where
  | newReader
  | newWriter
  | copy
  | closeReader
  | closeWriter
  | delete
  deriving DecidableEq, Repr

/-- A store operation issued by `moveHandler`: a listing of one bucket, or one step
for a key, against the bucket it addresses. -/
inductive Op where
  | list (s : Store)
  | step (p : Step) (s : Store) (k : Key)
  deriving DecidableEq, Repr

/-- One entry of the operation log: the call and whether it returned a nil error. -/
structure Event where
  op : Op
  ok : Bool
  deriving DecidableEq, Repr

/-- The environment of one request: which library calls return an error.
`faults i p` is the outcome of step `p` in the `i`-th iteration of the loop over
`sourceFiles`. `closeResidue i` is what a failing `destinationWriter.Close` of that
iteration leaves in the destination under the key: `none` when nothing was stored,
`some bytes` when an object, whole or partial, was stored before the error. -/
structure Env where
  listAwsFails : Bool
  listGcpFails : Bool
  faults : Nat → Step → Bool
  closeResidue : Nat → Option Bytes

/-- The environment in which no call fails. -/
def Env.healthy : Env := ⟨false, false, fun _ _ => false, fun _ => none⟩

/-- What `moveHandler` writes to the `http.ResponseWriter`. -/
inductive Response where
  | redirect (url : String) (status : Nat)
  | error (status : Nat) (body : String)
  deriving DecidableEq, Repr

/-- Value of `http.StatusInternalServerError`. -/
def StatusInternalServerError : Nat := 500

/-- Value of `http.StatusSeeOther`. -/
def StatusSeeOther : Nat := 303

/-- The listing loops of lines 65-93: every key of the bucket, or `none` when
`iter.Next` returns an error other than `io.EOF`. -/
def listFiles (fails : Bool) (b : Bucket) : Option (List Key) :=
  if fails then none else some b.keys

/-- Lines 95-102: source handle, destination handle and `sourceFiles`. -/
def chooseDirection (awsBucketFiles gcpBucketFiles : List Key) : Store × Store × List Key :=
  if gcpBucketFiles.length > awsBucketFiles.length then
    (Store.gcp, Store.aws, gcpBucketFiles)
  else
    (Store.aws, Store.gcp, awsBucketFiles)

/-- The body of the loop of lines 104-145 for one key: the state afterwards, the calls
made, and the body of the error answer when a call failed. `faults p` tells whether
step `p` returns an error; opening the reader and deleting also fail with `NotFound`
when the key is absent from the source. The handler returns after a failing
`destinationWriter.Close` without any clean-up, so the destination keeps what that call
stored, `closeResidue`. -/
def moveFile (sourceBucket destinationBucket : Store) (file : Key) (faults : Step → Bool)
    (closeResidue : Option Bytes) (st : State) : State × List Event × Option String :=
  let ev (p : Step) (s : Store) (ok : Bool) : Event := ⟨Op.step p s file, ok⟩
  -- sourceBucket.NewReader (line 105)
  match (if faults .newReader then none else (st.get sourceBucket).read file) with
  | none =>
    (st, [ev .newReader sourceBucket false],
      some "failed to get handle for object in source bucket")
  | some content =>
    let t1 := [ev .newReader sourceBucket true]
    -- destinationBucket.NewWriter (line 112)
    if faults .newWriter then
      (st, t1 ++ [ev .newWriter destinationBucket false],
        some "failed to get handle for object in destination bucket")
    else
      let t2 := t1 ++ [ev .newWriter destinationBucket true]
      -- io.Copy (line 119)
      if faults .copy then
        (st, t2 ++ [ev .copy destinationBucket false], some "failed to copy file")
      else
        let t3 := t2 ++ [ev .copy destinationBucket true]
        -- sourceReader.Close (line 126)
        if faults .closeReader then
          (st, t3 ++ [ev .closeReader sourceBucket false],
            some "failed to close source reader")
        else
          let t4 := t3 ++ [ev .closeReader sourceBucket true]
          -- destinationWriter.Close (line 132)
          if faults .closeWriter then
            ((match closeResidue with
              | none => st
              | some stored =>
                st.set destinationBucket ((st.get destinationBucket).write file stored)),
              t4 ++ [ev .closeWriter destinationBucket false],
              some "failed to close destination writer")
          else
            let t5 := t4 ++ [ev .closeWriter destinationBucket true]
            let st1 := st.set destinationBucket ((st.get destinationBucket).write file content)
            -- sourceBucket.Delete (line 139)
            if faults .delete || !((st1.get sourceBucket).keys.contains file) then
              (st1, t5 ++ [ev .delete sourceBucket false],
                some "failed to remove the old object from source")
            else
              (st1.set sourceBucket ((st1.get sourceBucket).delete file),
                t5 ++ [ev .delete sourceBucket true], none)

/-- The loop of lines 104-145: the keys of `sourceFiles` in order, returning at the
first failing call. -/
def moveLoop (sourceBucket destinationBucket : Store) :
    List Key → (Nat → Step → Bool) → (Nat → Option Bytes) → State →
      State × List Event × Option String
  | [], _, _, st => (st, [], none)
  | file :: rest, faults, closeResidue, st =>
    match moveFile sourceBucket destinationBucket file (faults 0) (closeResidue 0) st with
    | (st1, tr, some msg) => (st1, tr, some msg)
    | (st1, tr, none) =>
      match moveLoop sourceBucket destinationBucket rest (fun i => faults (i + 1))
          (fun i => closeResidue (i + 1)) st1 with
      | (st2, tr2, res) => (st2, tr ++ tr2, res)

/-- The outcome of one request to `/move`. -/
structure Run where
  state : State
  trace : List Event
  response : Response
  deriving DecidableEq, Repr

/-- The handler `moveHandler` (lines 64-148). -/
def moveHandler (env : Env) (st : State) : Run :=
  match listFiles env.listAwsFails st.aws with
  | none =>
    ⟨st, [⟨Op.list .aws, false⟩],
      .error StatusInternalServerError "failed to list items in aws bucket"⟩
  | some awsBucketFiles =>
    match listFiles env.listGcpFails st.gcp with
    | none =>
      ⟨st, [⟨Op.list .aws, true⟩, ⟨Op.list .gcp, false⟩],
        .error StatusInternalServerError "failed to list items in gcp bucket"⟩
    | some gcpBucketFiles =>
      match chooseDirection awsBucketFiles gcpBucketFiles with
      | (sourceBucket, destinationBucket, sourceFiles) =>
        match moveLoop sourceBucket destinationBucket sourceFiles env.faults
            env.closeResidue st with
        | (st1, tr, some msg) =>
          ⟨st1, [⟨Op.list .aws, true⟩, ⟨Op.list .gcp, true⟩] ++ tr,
            .error StatusInternalServerError msg⟩
        | (st1, tr, none) =>
          ⟨st1, [⟨Op.list .aws, true⟩, ⟨Op.list .gcp, true⟩] ++ tr,
            .redirect "/" StatusSeeOther⟩

/-! ## The intended plan of a migration run (specification section 4.4) -/

/-- The bucket a step addresses: reader, reader close and delete go to the source,
writer, copy and writer close to the destination. -/
def stepTarget (src dst : Store) : Step → Store
  | .newReader => src
  | .newWriter => dst
  | .copy => dst
  | .closeReader => src
  | .closeWriter => dst
  | .delete => src

/-- The steps that precede a step in the order of section 4.4, step 3: open reader,
open writer, stream the bytes, close reader, close writer, delete. -/
def stepsBefore : Step → List Step
  | .newReader => []
  | .newWriter => [.newReader]
  | .copy => [.newReader, .newWriter]
  | .closeReader => [.newReader, .newWriter, .copy]
  | .closeWriter => [.newReader, .newWriter, .copy, .closeReader]
  | .delete => [.newReader, .newWriter, .copy, .closeReader, .closeWriter]

/-- The event of step `p` for key `k` with outcome `ok`. -/
def stepEvent (src dst : Store) (k : Key) (ok : Bool) (p : Step) : Event :=
  ⟨Op.step p (stepTarget src dst p) k, ok⟩

/-- The log of a key whose six steps all succeed. -/
def okTrace (src dst : Store) (k : Key) : List Event :=
  (stepsBefore Step.delete ++ [Step.delete]).map (stepEvent src dst k true)

/-- The log of a key whose step `p` is the first to fail. -/
def failTrace (src dst : Store) (k : Key) (p : Step) : List Event :=
  (stepsBefore p).map (stepEvent src dst k true) ++ [stepEvent src dst k false p]

/-- The log of a list of keys that are all migrated, in order. -/
def okPlan (src dst : Store) : List Key → List Event
  | [] => []
  | k :: ks => okTrace src dst k ++ okPlan src dst ks

/-- The phases of a request that can fail. -/
inductive Phase where
  | listAws
  | listGcp
  | step (p : Step)
  deriving DecidableEq, Repr

/-- The phase an operation belongs to. -/
def Op.phase : Op → Phase
  | .list .aws => .listAws
  | .list .gcp => .listGcp
  | .step p _ _ => .step p

/-- The fixed phrase answered for each failing phase. -/
def failurePhrase : Phase → String
  | .listAws => "failed to list items in aws bucket"
  | .listGcp => "failed to list items in gcp bucket"
  | .step .newReader => "failed to get handle for object in source bucket"
  | .step .newWriter => "failed to get handle for object in destination bucket"
  | .step .copy => "failed to copy file"
  | .step .closeReader => "failed to close source reader"
  | .step .closeWriter => "failed to close destination writer"
  | .step .delete => "failed to remove the old object from source"

/-- The effect of a complete copy-then-delete of one key: the destination holds the
bytes of the source under that key and the source no longer holds the key. A key the
source does not hold is left alone. -/
def moveOne (src dst : Store) (st : State) (k : Key) : State :=
  match (st.get src).read k with
  | none => st
  | some content =>
    let st1 := st.set dst ((st.get dst).write k content)
    st1.set src ((st1.get src).delete k)

/-- The effect of a complete copy-then-delete of a list of keys, in order. -/
def moveAll (src dst : Store) (files : List Key) (st : State) : State :=
  files.foldl (moveOne src dst) st

/-- The state in which a key whose step `p` failed leaves the buckets: a failed delete
follows a completed write to the destination, a failed close of the writer leaves what it
stored (`residue`), any other failure leaves the buckets as they were. -/
def failState (src dst : Store) (k : Key) (p : Step) (residue : Option Bytes) (st : State) :
    State :=
  match p, (st.get src).read k with
  | .delete, some content => st.set dst ((st.get dst).write k content)
  | .closeWriter, some _ =>
    (match residue with
      | none => st
      | some stored => st.set dst ((st.get dst).write k stored))
  | _, _ => st

/-- The number of successful deletes in a log: the number of keys migrated. -/
def migratedCount (tr : List Event) : Nat :=
  (tr.filter (fun e => match e.op with
    | .step .delete _ _ => e.ok
    | _ => false)).length

/-- The log of the two listings when both succeed. -/
def listed : List Event := [⟨Op.list .aws, true⟩, ⟨Op.list .gcp, true⟩]

/-- The source handle `moveHandler` chooses in a state. -/
def sourceOf (st : State) : Store := (chooseDirection st.aws.keys st.gcp.keys).1

/-- The destination handle `moveHandler` chooses in a state. -/
def destinationOf (st : State) : Store := (chooseDirection st.aws.keys st.gcp.keys).2.1

/-- The listing `moveHandler` iterates over in a state. -/
def sourceFilesOf (st : State) : List Key := (chooseDirection st.aws.keys st.gcp.keys).2.2

/-! ## Readiness gates -/

/-- An open `*blob.Bucket` handle. -/
abbrev Handle := Nat

/-- The result of `blob.OpenBucket`. -/
inductive OpenResult where
  | ok (h : Handle)
  | err (e : String)
  deriving DecidableEq, Repr

/-- The result of `homedir.Expand`. -/
inductive ExpandResult where
  | ok (path : String)
  | err (e : String)
  deriving DecidableEq, Repr

/-- What the library calls of one attempt of the AWS operation return: `blob.OpenBucket`
and `IsAccessible` (the flag and the error, `none` for a nil error). -/
structure AwsAttempt where
  openBucket : OpenResult
  isAccessible : Bool × Option String
  deriving DecidableEq, Repr

/-- What the library calls of one attempt of the GCP operation return: `homedir.Expand`,
`os.Stat` (`some e` when the error is `os.ErrNotExist`), `blob.OpenBucket` and
`IsAccessible`. -/
structure GcpAttempt where
  expand : ExpandResult
  statNotExist : Option String
  openBucket : OpenResult
  isAccessible : Bool × Option String
  deriving DecidableEq, Repr

/-- How one run of an `operation` closure ends: `nil`, an ordinary error (retried by
`backoff.Retry`), a `backoff.Permanent` error, or `log.Fatal` (the process exits). -/
inductive Outcome where
  | success
  | retryable (e : String)
  | permanent (e : String)
  | fatal (e : String)
  deriving DecidableEq, Repr

/-- The AWS `operation` closure (lines 211-228); the state is the variable `awsBucket`. -/
def awsOperation (a : AwsAttempt) (_awsBucket : Option Handle) : Outcome × Option Handle :=
  match a.openBucket with
  | .err e => (.fatal e, none)
  | .ok h =>
    match a.isAccessible with
    | (_, some e) => (.retryable e, some h)
    | (accessible, none) =>
      if !accessible then
        (.permanent "bucket was not accessible with credentials", some h)
      else
        (.success, some h)

/-- The GCP `operation` closure (lines 237-269); the state is the variable `gcpBucket`. -/
def gcpOperation (a : GcpAttempt) (gcpBucket : Option Handle) : Outcome × Option Handle :=
  match a.expand with
  | .err _ =>
    (.permanent "failed to build path for application_default_credentials", gcpBucket)
  | .ok _ =>
    match a.statNotExist with
    | some e => (.retryable e, gcpBucket)
    | none =>
      match a.openBucket with
      | .err e => (.retryable e, none)
      | .ok h =>
        match a.isAccessible with
        | (accessible, err) =>
          if err.isSome || !accessible then
            (.permanent "bucket was not accessible with credentials", some h)
          else
            (.success, some h)

/-- How far a readiness gate has come: `backoff.Retry` returned (`none` for a nil
error), the process exited in `log.Fatal`, or the gate is still retrying. -/
inductive Status where
  | returned (err : Option String)
  | exited (e : String)
  | running
  deriving DecidableEq, Repr

/-- Modelled from the spec: `backoff.Retry` of `github.com/cenkalti/backoff` (section 4.1,
"BackoffPolicy"): the operation is invoked until it returns success or a permanent error;
a permanent error is returned at once. `stop n` tells whether the back-off policy gives up
after the failure of attempt `n`; the delays between attempts are not modelled. `fuel`
bounds the number of attempts observed, `n` is the index of the next attempt, and the
result carries the outcomes of the attempts made. -/
def retry {σ : Type} (stop : Nat → Bool) (operation : Nat → σ → Outcome × σ) :
    Nat → Nat → σ → Status × List Outcome × σ
  | 0, _, s => (.running, [], s)
  | fuel + 1, n, s =>
    match operation n s with
    | (.success, s1) => (.returned none, [.success], s1)
    | (.permanent e, s1) => (.returned (some e), [.permanent e], s1)
    | (.fatal e, s1) => (.exited e, [.fatal e], s1)
    | (.retryable e, s1) =>
      if stop n then (.returned (some e), [.retryable e], s1)
      else
        match retry stop operation fuel (n + 1) s1 with
        | (status, log, s2) => (status, .retryable e :: log, s2)

/-- The policy of a gate that never gives up. -/
def neverStop : Nat → Bool := fun _ => false

/-- The AWS readiness gate (lines 211-233): `backoff.Retry` of the AWS operation;
`script n` is what the library calls return in attempt `n`. -/
def awsGate (stop : Nat → Bool) (script : Nat → AwsAttempt) (fuel : Nat) :
    Status × List Outcome × Option Handle :=
  retry stop (fun n b => awsOperation (script n) b) fuel 0 none

/-- The GCP readiness gate (lines 237-274): `backoff.Retry` of the GCP operation. -/
def gcpGate (stop : Nat → Bool) (script : Nat → GcpAttempt) (fuel : Nat) :
    Status × List Outcome × Option Handle :=
  retry stop (fun n b => gcpOperation (script n) b) fuel 0 none

/-- An attempt outcome that `backoff.Retry` retries. -/
def Outcome.isRetryable : Outcome → Bool
  | .retryable _ => true
  | _ => false

/-- How `backoff.Retry` ends when an attempt with this outcome ends the loop: a nil
error, the error of the attempt, or the exit of the process. -/
def Outcome.status : Outcome → Status
  | .success => .returned none
  | .retryable e => .returned (some e)
  | .permanent e => .returned (some e)
  | .fatal e => .exited e


/-! ## The bucket as a finite map -/

theorem Bucket.mem_keys_iff (b : Bucket) (k : Key) : k ∈ b.keys ↔ ∃ v, (k, v) ∈ b := by
  simp [Bucket.keys]

theorem Bucket.read_nil (k : Key) : Bucket.read [] k = none := rfl

theorem Bucket.read_cons (k k' : Key) (v : Bytes) (b : Bucket) :
    Bucket.read ((k', v) :: b) k = if k = k' then some v else Bucket.read b k := by
  unfold Bucket.read
  by_cases h : k = k'
  · subst h; simp [List.lookup]
  · have : (k == k') = false := by simpa using h
    simp [List.lookup, this, h]

theorem Bucket.keys_cons (k : Key) (v : Bytes) (b : Bucket) :
    Bucket.keys ((k, v) :: b) = k :: Bucket.keys b := rfl

theorem Bucket.read_isSome_iff (b : Bucket) (k : Key) : (b.read k).isSome ↔ k ∈ b.keys := by
  induction b with
  | nil => simp [Bucket.read_nil, Bucket.keys]
  | cons e b ih =>
    obtain ⟨k', v⟩ := e
    rw [Bucket.read_cons, Bucket.keys_cons]
    by_cases h : k = k'
    · simp [h]
    · simp [h, ih]

theorem Bucket.read_eq_none_iff (b : Bucket) (k : Key) : b.read k = none ↔ k ∉ b.keys := by
  rw [← Bucket.read_isSome_iff]
  cases b.read k <;> simp

theorem Bucket.delete_cons (k k' : Key) (v : Bytes) (b : Bucket) :
    Bucket.delete ((k', v) :: b) k
      = if k' = k then Bucket.delete b k else (k', v) :: Bucket.delete b k := by
  unfold Bucket.delete
  by_cases h : k' = k
  · simp [List.filter, h]
  · have hb : (k' != k) = true := by simpa using h
    simp [List.filter, hb, h]

theorem Bucket.mem_keys_delete (b : Bucket) (k j : Key) :
    j ∈ (b.delete k).keys ↔ j ∈ b.keys ∧ j ≠ k := by
  induction b with
  | nil => simp [Bucket.delete, Bucket.keys]
  | cons e b ih =>
    obtain ⟨k', v⟩ := e
    rw [Bucket.delete_cons]
    by_cases h : k' = k
    · subst h
      simp only [if_true, ih, Bucket.keys_cons, List.mem_cons]
      constructor
      · rintro ⟨h1, h2⟩; exact ⟨Or.inr h1, h2⟩
      · rintro ⟨h1 | h1, h2⟩
        · exact absurd h1 h2
        · exact ⟨h1, h2⟩
    · simp only [h, if_false, Bucket.keys_cons, List.mem_cons, ih]
      constructor
      · rintro (h1 | ⟨h1, h2⟩)
        · exact ⟨Or.inl h1, by rw [h1]; exact h⟩
        · exact ⟨Or.inr h1, h2⟩
      · rintro ⟨h1 | h1, h2⟩
        · exact Or.inl h1
        · exact Or.inr ⟨h1, h2⟩

theorem Bucket.read_delete (b : Bucket) (k j : Key) :
    (b.delete k).read j = if j = k then none else b.read j := by
  induction b with
  | nil => simp [Bucket.delete, Bucket.read_nil]
  | cons e b ih =>
    obtain ⟨k', v⟩ := e
    rw [Bucket.delete_cons]
    by_cases h : k' = k
    · subst h
      simp only [if_true, ih, Bucket.read_cons]
      by_cases hj : j = k' <;> simp [hj]
    · simp only [h, if_false, Bucket.read_cons, ih]
      by_cases hj : j = k'
      · have : j ≠ k := by rw [hj]; exact h
        simp [hj, h]
      · simp [hj]

theorem Bucket.nodup_keys_delete (b : Bucket) (k : Key) (h : b.keys.Nodup) :
    (b.delete k).keys.Nodup := by
  induction b with
  | nil => simp [Bucket.delete, Bucket.keys]
  | cons e b ih =>
    obtain ⟨k', v⟩ := e
    rw [Bucket.keys_cons, List.nodup_cons] at h
    rw [Bucket.delete_cons]
    by_cases hk : k' = k
    · simp only [hk, if_true]; exact ih h.2
    · simp only [hk, if_false, Bucket.keys_cons, List.nodup_cons]
      refine ⟨?_, ih h.2⟩
      rw [Bucket.mem_keys_delete]
      exact fun hc => h.1 hc.1

theorem Bucket.mem_keys_insert (b : Bucket) (k j : Key) (v : Bytes) :
    j ∈ (Bucket.insert k v b).keys ↔ j = k ∨ j ∈ b.keys := by
  induction b with
  | nil => simp [Bucket.insert, Bucket.keys]
  | cons e b ih =>
    obtain ⟨k', v'⟩ := e
    unfold Bucket.insert
    by_cases h : k.data < k'.data
    · simp [h, Bucket.keys]
    · simp only [h, if_false, Bucket.keys_cons, List.mem_cons, ih]
      tauto

theorem Bucket.read_insert_of_ne (b : Bucket) (k j : Key) (v : Bytes) (h : j ≠ k) :
    (Bucket.insert k v b).read j = b.read j := by
  induction b with
  | nil => simp [Bucket.insert, Bucket.read_cons, h]
  | cons e b ih =>
    obtain ⟨k', v'⟩ := e
    unfold Bucket.insert
    by_cases hlt : k.data < k'.data
    · simp only [hlt, if_true]
      rw [Bucket.read_cons]
      simp [h]
    · simp only [hlt, if_false, Bucket.read_cons, ih]

theorem Bucket.read_insert_self (b : Bucket) (k : Key) (v : Bytes) (h : k ∉ b.keys) :
    (Bucket.insert k v b).read k = some v := by
  induction b with
  | nil => simp [Bucket.insert, Bucket.read_cons]
  | cons e b ih =>
    obtain ⟨k', v'⟩ := e
    rw [Bucket.keys_cons, List.mem_cons, not_or] at h
    unfold Bucket.insert
    by_cases hlt : k.data < k'.data
    · simp only [hlt, if_true]
      rw [Bucket.read_cons]
      simp
    · simp only [hlt, if_false, Bucket.read_cons, h.1, ih h.2]

theorem Bucket.nodup_keys_insert (b : Bucket) (k : Key) (v : Bytes) (h : b.keys.Nodup)
    (hk : k ∉ b.keys) : (Bucket.insert k v b).keys.Nodup := by
  induction b with
  | nil => simp [Bucket.insert, Bucket.keys]
  | cons e b ih =>
    obtain ⟨k', v'⟩ := e
    rw [Bucket.keys_cons, List.mem_cons, not_or] at hk
    unfold Bucket.insert
    by_cases hlt : k.data < k'.data
    · simp only [hlt, if_true]
      rw [Bucket.keys_cons, List.nodup_cons]
      exact ⟨by rw [Bucket.keys_cons, List.mem_cons, not_or]; exact hk, h⟩
    · rw [Bucket.keys_cons, List.nodup_cons] at h
      simp only [hlt, if_false, Bucket.keys_cons, List.nodup_cons]
      refine ⟨?_, ih h.2 hk.2⟩
      rw [Bucket.mem_keys_insert]
      rintro (hc | hc)
      · exact hk.1 hc.symm
      · exact h.1 hc

theorem Bucket.mem_keys_write (b : Bucket) (k j : Key) (v : Bytes) :
    j ∈ (b.write k v).keys ↔ j = k ∨ j ∈ b.keys := by
  unfold Bucket.write
  rw [Bucket.mem_keys_insert, Bucket.mem_keys_delete]
  by_cases h : j = k <;> simp [h]

theorem Bucket.read_write_self (b : Bucket) (k : Key) (v : Bytes) :
    (b.write k v).read k = some v := by
  unfold Bucket.write
  apply Bucket.read_insert_self
  rw [Bucket.mem_keys_delete]
  exact fun hc => hc.2 rfl

theorem Bucket.read_write_of_ne (b : Bucket) (k j : Key) (v : Bytes) (h : j ≠ k) :
    (b.write k v).read j = b.read j := by
  unfold Bucket.write
  rw [Bucket.read_insert_of_ne _ _ _ _ h, Bucket.read_delete]
  simp [h]

theorem Bucket.nodup_keys_write (b : Bucket) (k : Key) (v : Bytes) (h : b.keys.Nodup) :
    (b.write k v).keys.Nodup := by
  unfold Bucket.write
  apply Bucket.nodup_keys_insert _ _ _ (Bucket.nodup_keys_delete b k h)
  rw [Bucket.mem_keys_delete]
  exact fun hc => hc.2 rfl

theorem Bucket.keys_eq_nil (b : Bucket) : b.keys = [] ↔ b = [] := by
  cases b <;> simp [Bucket.keys]

/-! ## State access -/

theorem State.get_set_same (st : State) (s : Store) (b : Bucket) : (st.set s b).get s = b := by
  cases s <;> rfl

theorem State.get_set_of_ne (st : State) (s t : Store) (b : Bucket) (h : s ≠ t) :
    (st.set s b).get t = st.get t := by
  cases s <;> cases t <;> first | rfl | exact absurd rfl h

/-! ## One iteration of the loop -/

theorem moveFile_cases (src dst : Store) (k : Key) (f : Step → Bool) (r : Option Bytes)
    (st : State) :
    (moveFile src dst k f r st = (moveOne src dst st k, okTrace src dst k, none)
      ∧ (∀ p, f p = false) ∧ ((st.get src).read k).isSome) ∨
    (∃ p, moveFile src dst k f r st
      = (failState src dst k p r st, failTrace src dst k p, some (failurePhrase (.step p)))
      ∧ (f p = true ∨ (st.get src).read k = none) ∧ (∀ q ∈ stepsBefore p, f q = false)) := by
  unfold moveFile
  by_cases h1 : f .newReader = true
  · right
    exact ⟨.newReader, by simp [h1, failState, failTrace, stepsBefore, stepEvent, stepTarget,
      failurePhrase], Or.inl h1, by simp [stepsBefore]⟩
  · simp only [h1]
    cases hr : (st.get src).read k with
    | none =>
      right
      exact ⟨.newReader, by simp [failState, failTrace, stepsBefore, stepEvent, stepTarget,
        failurePhrase], Or.inr rfl, by simp [stepsBefore]⟩
    | some content =>
      by_cases h2 : f .newWriter = true
      · right
        exact ⟨.newWriter, by simp [h2, failState, failTrace, stepsBefore, stepEvent,
          stepTarget, failurePhrase], Or.inl h2, by simpa [stepsBefore] using h1⟩
      by_cases h3 : f .copy = true
      · right
        exact ⟨.copy, by simp [h2, h3, failState, failTrace, stepsBefore, stepEvent,
          stepTarget, failurePhrase], Or.inl h3, by simp [stepsBefore, h1, h2]⟩
      by_cases h4 : f .closeReader = true
      · right
        exact ⟨.closeReader, by simp [h2, h3, h4, failState, failTrace, stepsBefore, stepEvent,
          stepTarget, failurePhrase], Or.inl h4, by simp [stepsBefore, h1, h2, h3]⟩
      by_cases h5 : f .closeWriter = true
      · right
        refine ⟨.closeWriter, ?_, Or.inl h5, by simp [stepsBefore, h1, h2, h3, h4]⟩
        cases r <;> simp [h2, h3, h4, h5, hr, failState, failTrace, stepsBefore, stepEvent,
          stepTarget, failurePhrase]
      by_cases h6 : f .delete = true ∨
          k ∉ ((st.set dst ((st.get dst).write k content)).get src).keys
      · right
        refine ⟨.delete, by simp [h2, h3, h4, h5, h6, hr, failState, failTrace, stepsBefore,
          stepEvent, stepTarget, failurePhrase], ?_, by simp [stepsBefore, h1, h2, h3, h4, h5]⟩
        rcases h6 with h6 | h6
        · exact Or.inl h6
        · exfalso
          apply h6
          by_cases hsd : dst = src
          · subst hsd
            rw [State.get_set_same, Bucket.mem_keys_write]
            exact Or.inl rfl
          · rw [State.get_set_of_ne _ _ _ _ hsd, ← Bucket.read_isSome_iff, hr]
            rfl
      · left
        refine ⟨by simp [h2, h3, h4, h5, h6, hr, moveOne, okTrace, stepsBefore, stepEvent,
          stepTarget], ?_, by simp⟩
        intro p
        have h6' : f .delete = false := by
          cases hd : f .delete
          · rfl
          · exact absurd (Or.inl hd) h6
        cases p
        · simpa using h1
        · simpa using h2
        · simpa using h3
        · simpa using h4
        · simpa using h5
        · exact h6'

/-! ## The loop -/

theorem moveLoop_cases (src dst : Store) (files : List Key) (faults : Nat → Step → Bool)
    (residue : Nat → Option Bytes) (st : State) :
    (moveLoop src dst files faults residue st
        = (moveAll src dst files st, okPlan src dst files, none) ∧
      (∀ i < files.length, ∀ q, faults i q = false)) ∨
    (∃ pre k post p, files = pre ++ k :: post ∧
      moveLoop src dst files faults residue st
        = (failState src dst k p (residue pre.length) (moveAll src dst pre st),
            okPlan src dst pre ++ failTrace src dst k p, some (failurePhrase (.step p))) ∧
      (faults pre.length p = true ∨ ((moveAll src dst pre st).get src).read k = none) ∧
      (∀ q ∈ stepsBefore p, faults pre.length q = false) ∧
      (∀ i < pre.length, ∀ q, faults i q = false)) := by
  induction files generalizing faults residue st with
  | nil => left; exact ⟨rfl, fun i hi => absurd hi (by simp)⟩
  | cons k ks ih =>
    rcases moveFile_cases src dst k (faults 0) (residue 0) st with
      ⟨h, hnone, _⟩ | ⟨p, h, hwhy, hbefore⟩
    · rcases ih (fun i => faults (i + 1)) (fun i => residue (i + 1)) (moveOne src dst st k) with
        ⟨h2, hall⟩ | ⟨pre, k2, post, p, hfiles, h2, hwhy, hbefore, hall⟩
      · left
        refine ⟨by simp only [moveLoop, h, h2, moveAll, okPlan, List.foldl_cons], ?_⟩
        intro i hi q
        cases i with
        | zero => exact hnone q
        | succ j => exact hall j (by simpa using hi) q
      · right
        refine ⟨k :: pre, k2, post, p, by simp [hfiles], ?_, ?_, ?_, ?_⟩
        · simp only [moveLoop, h, h2, moveAll, okPlan, List.foldl_cons, List.append_assoc,
            List.length_cons]
        · simpa [moveAll] using hwhy
        · simpa using hbefore
        · intro i hi q
          cases i with
          | zero => exact hnone q
          | succ j => exact hall j (by simpa using hi) q
    · right
      exact ⟨[], k, ks, p, rfl, by simp [moveLoop, h, moveAll, okPlan],
        by simpa [moveAll] using hwhy, by simpa using hbefore, fun i hi => absurd hi (by simp)⟩

/-! ## The effect of migrating a list of keys -/

theorem moveOne_src_read (src dst : Store) (h : src ≠ dst) (st : State) (k j : Key) :
    ((moveOne src dst st k).get src).read j = if j = k then none else (st.get src).read j := by
  unfold moveOne
  cases hr : (st.get src).read k with
  | none =>
    by_cases hj : j = k
    · simp [hj, hr]
    · simp [hj]
  | some content =>
    simp only [State.get_set_same, State.get_set_of_ne _ _ _ _ (Ne.symm h), Bucket.read_delete]

theorem moveOne_dst_read (src dst : Store) (h : src ≠ dst) (st : State) (k j : Key) :
    ((moveOne src dst st k).get dst).read j
      = if j = k then
          (match (st.get src).read k with
            | some v => some v
            | none => (st.get dst).read k)
        else (st.get dst).read j := by
  unfold moveOne
  cases hr : (st.get src).read k with
  | none =>
    by_cases hj : j = k
    · simp [hj]
    · simp [hj]
  | some content =>
    simp only [State.get_set_same, State.get_set_of_ne _ _ _ _ h]
    by_cases hj : j = k
    · simp [hj, Bucket.read_write_self]
    · simp [hj, Bucket.read_write_of_ne _ _ _ _ hj]

theorem moveOne_nodup (src dst : Store) (st : State) (k : Key)
    (h : ∀ s, (st.get s).keys.Nodup) : ∀ s, ((moveOne src dst st k).get s).keys.Nodup := by
  unfold moveOne
  cases hr : (st.get src).read k with
  | none => exact h
  | some content =>
    have h1 : ∀ s, ((st.set dst ((st.get dst).write k content)).get s).keys.Nodup := by
      intro s
      by_cases hs : dst = s
      · subst hs; rw [State.get_set_same]; exact Bucket.nodup_keys_write _ _ _ (h _)
      · rw [State.get_set_of_ne _ _ _ _ hs]; exact h s
    intro s
    by_cases hs : src = s
    · subst hs; simp only [State.get_set_same]; exact Bucket.nodup_keys_delete _ _ (h1 _)
    · simp only [State.get_set_of_ne _ _ _ _ hs]; exact h1 s

theorem moveAll_cons (src dst : Store) (k : Key) (ks : List Key) (st : State) :
    moveAll src dst (k :: ks) st = moveAll src dst ks (moveOne src dst st k) := rfl

theorem moveAll_src_read (src dst : Store) (h : src ≠ dst) (files : List Key) (st : State)
    (j : Key) :
    ((moveAll src dst files st).get src).read j
      = if j ∈ files then none else (st.get src).read j := by
  induction files generalizing st with
  | nil => simp [moveAll]
  | cons k ks ih =>
    rw [moveAll_cons, ih, moveOne_src_read src dst h]
    by_cases hj : j = k
    · simp [hj]
    · simp [hj]

theorem moveAll_dst_read (src dst : Store) (h : src ≠ dst) (files : List Key) (st : State)
    (j : Key) :
    ((moveAll src dst files st).get dst).read j
      = if j ∈ files then
          (match (st.get src).read j with
            | some v => some v
            | none => (st.get dst).read j)
        else (st.get dst).read j := by
  induction files generalizing st with
  | nil => simp [moveAll]
  | cons k ks ih =>
    rw [moveAll_cons, ih, moveOne_src_read src dst h, moveOne_dst_read src dst h]
    by_cases hj : j = k
    · subst hj
      simp
    · simp [hj]

theorem moveAll_nodup (src dst : Store) (files : List Key) (st : State)
    (h : ∀ s, (st.get s).keys.Nodup) : ∀ s, ((moveAll src dst files st).get s).keys.Nodup := by
  induction files generalizing st with
  | nil => simpa [moveAll] using h
  | cons k ks ih =>
    rw [moveAll_cons]
    exact ih _ (moveOne_nodup src dst st k h)

/-! ## Shape of the logs -/

theorem okTrace_all_ok (src dst : Store) (k : Key) : ∀ e ∈ okTrace src dst k, e.ok = true := by
  intro e he
  simp only [okTrace, List.mem_map] at he
  obtain ⟨p, _, rfl⟩ := he
  rfl

theorem okPlan_all_ok (src dst : Store) (files : List Key) :
    ∀ e ∈ okPlan src dst files, e.ok = true := by
  induction files with
  | nil => intro e he; simp [okPlan] at he
  | cons k ks ih =>
    intro e he
    simp only [okPlan, List.mem_append] at he
    rcases he with he | he
    · exact okTrace_all_ok src dst k e he
    · exact ih e he

theorem okPlan_append (src dst : Store) (xs ys : List Key) :
    okPlan src dst (xs ++ ys) = okPlan src dst xs ++ okPlan src dst ys := by
  induction xs with
  | nil => rfl
  | cons k ks ih => simp [okPlan, ih]

theorem mem_okPlan (src dst : Store) (files : List Key) (e : Event) :
    e ∈ okPlan src dst files ↔ ∃ k ∈ files, e ∈ okTrace src dst k := by
  induction files with
  | nil => simp [okPlan]
  | cons k ks ih => simp [okPlan, ih]

theorem failTrace_ops_le (src dst : Store) (k : Key) (p : Step) :
    (failTrace src dst k p).map Event.op <+: (okTrace src dst k).map Event.op := by
  cases p <;> simp [failTrace, okTrace, stepsBefore, stepEvent, List.IsPrefix]

theorem listed_all_ok : ∀ e ∈ listed, e.ok = true := by
  intro e he
  simp only [listed, List.mem_cons, List.mem_singleton, List.not_mem_nil, or_false] at he
  rcases he with rfl | rfl <;> rfl

/-! ## The direction -/

theorem direction_cases (st : State) :
    (sourceOf st = .aws ∧ destinationOf st = .gcp ∧ sourceFilesOf st = st.aws.keys
      ∧ st.gcp.keys.length ≤ st.aws.keys.length) ∨
    (sourceOf st = .gcp ∧ destinationOf st = .aws ∧ sourceFilesOf st = st.gcp.keys
      ∧ st.aws.keys.length < st.gcp.keys.length) := by
  unfold sourceOf destinationOf sourceFilesOf chooseDirection
  by_cases h : st.gcp.keys.length > st.aws.keys.length
  · right; simp [h]
  · left; simp [h]; omega

theorem source_ne_destination (st : State) : sourceOf st ≠ destinationOf st := by
  rcases direction_cases st with ⟨h1, h2, _, _⟩ | ⟨h1, h2, _, _⟩ <;> simp [h1, h2]

theorem sourceFilesOf_eq (st : State) : sourceFilesOf st = (st.get (sourceOf st)).keys := by
  rcases direction_cases st with ⟨h1, _, h3, _⟩ | ⟨h1, _, h3, _⟩ <;> simp [h1, h3, State.get]

/-! ## The handler -/

theorem moveHandler_cases_env (env : Env) (st : State) :
    (env.listAwsFails = true ∧
      moveHandler env st = ⟨st, [⟨Op.list .aws, false⟩],
        .error StatusInternalServerError (failurePhrase .listAws)⟩) ∨
    (env.listAwsFails = false ∧ env.listGcpFails = true ∧
      moveHandler env st = ⟨st, [⟨Op.list .aws, true⟩, ⟨Op.list .gcp, false⟩],
        .error StatusInternalServerError (failurePhrase .listGcp)⟩) ∨
    (env.listAwsFails = false ∧ env.listGcpFails = false ∧
      moveHandler env st
        = ⟨moveAll (sourceOf st) (destinationOf st) (sourceFilesOf st) st,
            listed ++ okPlan (sourceOf st) (destinationOf st) (sourceFilesOf st),
            .redirect "/" StatusSeeOther⟩ ∧
      (∀ i < (sourceFilesOf st).length, ∀ q, env.faults i q = false)) ∨
    (∃ pre k post p, env.listAwsFails = false ∧ env.listGcpFails = false ∧
      sourceFilesOf st = pre ++ k :: post ∧
      moveHandler env st
        = ⟨failState (sourceOf st) (destinationOf st) k p (env.closeResidue pre.length)
              (moveAll (sourceOf st) (destinationOf st) pre st),
            listed ++ (okPlan (sourceOf st) (destinationOf st) pre
              ++ failTrace (sourceOf st) (destinationOf st) k p),
            .error StatusInternalServerError (failurePhrase (.step p))⟩ ∧
      (env.faults pre.length p = true ∨
        ((moveAll (sourceOf st) (destinationOf st) pre st).get (sourceOf st)).read k = none) ∧
      (∀ q ∈ stepsBefore p, env.faults pre.length q = false) ∧
      (∀ i < pre.length, ∀ q, env.faults i q = false)) := by
  unfold moveHandler listFiles sourceOf destinationOf sourceFilesOf
  cases h1 : env.listAwsFails with
  | true => left; simp [failurePhrase]
  | false =>
    cases h2 : env.listGcpFails with
    | true => right; left; simp [failurePhrase]
    | false =>
      right; right
      simp only [Bool.false_eq_true, if_false]
      rcases moveLoop_cases (chooseDirection st.aws.keys st.gcp.keys).1
          (chooseDirection st.aws.keys st.gcp.keys).2.1
          (chooseDirection st.aws.keys st.gcp.keys).2.2 env.faults env.closeResidue st with
        ⟨h, hall⟩ | ⟨pre, k, post, p, hfiles, h, hwhy, hbefore, hall⟩
      · left; exact ⟨trivial, trivial, by simp only [h, listed], hall⟩
      · right
        exact ⟨pre, k, post, p, trivial, trivial, hfiles, by simp only [h, listed], hwhy,
          hbefore, hall⟩

theorem moveHandler_cases (env : Env) (st : State) :
    (moveHandler env st = ⟨st, [⟨Op.list .aws, false⟩],
        .error StatusInternalServerError (failurePhrase .listAws)⟩) ∨
    (moveHandler env st = ⟨st, [⟨Op.list .aws, true⟩, ⟨Op.list .gcp, false⟩],
        .error StatusInternalServerError (failurePhrase .listGcp)⟩) ∨
    (moveHandler env st
      = ⟨moveAll (sourceOf st) (destinationOf st) (sourceFilesOf st) st,
          listed ++ okPlan (sourceOf st) (destinationOf st) (sourceFilesOf st),
          .redirect "/" StatusSeeOther⟩) ∨
    (∃ pre k post p, sourceFilesOf st = pre ++ k :: post ∧
      moveHandler env st
        = ⟨failState (sourceOf st) (destinationOf st) k p (env.closeResidue pre.length)
              (moveAll (sourceOf st) (destinationOf st) pre st),
            listed ++ (okPlan (sourceOf st) (destinationOf st) pre
              ++ failTrace (sourceOf st) (destinationOf st) k p),
            .error StatusInternalServerError (failurePhrase (.step p))⟩ ∧
      (env.faults pre.length p = true ∨
        ((moveAll (sourceOf st) (destinationOf st) pre st).get (sourceOf st)).read k = none)) := by
  rcases moveHandler_cases_env env st with
    ⟨_, h⟩ | ⟨_, _, h⟩ | ⟨_, _, h, _⟩ | ⟨pre, k, post, p, _, _, hfiles, h, hwhy, _, _⟩
  · exact Or.inl h
  · exact Or.inr (Or.inl h)
  · exact Or.inr (Or.inr (Or.inl h))
  · exact Or.inr (Or.inr (Or.inr ⟨pre, k, post, p, hfiles, h, hwhy⟩))

theorem failTrace_last (src dst : Store) (k : Key) (p : Step) :
    failTrace src dst k p
      = (stepsBefore p).map (stepEvent src dst k true) ++ [stepEvent src dst k false p] := rfl

theorem failTrace_init_ok (src dst : Store) (k : Key) (p : Step) :
    ∀ e ∈ (stepsBefore p).map (stepEvent src dst k true), e.ok = true := by
  intro e he
  simp only [List.mem_map] at he
  obtain ⟨q, _, rfl⟩ := he
  rfl

theorem moveHandler_of_all_ok (env : Env) (st : State)
    (hok : ∀ e ∈ (moveHandler env st).trace, e.ok = true) :
    moveHandler env st
      = ⟨moveAll (sourceOf st) (destinationOf st) (sourceFilesOf st) st,
          listed ++ okPlan (sourceOf st) (destinationOf st) (sourceFilesOf st),
          .redirect "/" StatusSeeOther⟩ := by
  rcases moveHandler_cases env st with h | h | h | ⟨pre, k, post, p, _, h, _⟩
  · rw [h] at hok
    exact absurd (hok ⟨Op.list .aws, false⟩ (by simp)) (by simp)
  · rw [h] at hok
    exact absurd (hok ⟨Op.list .gcp, false⟩ (by simp)) (by simp)
  · exact h
  · rw [h] at hok
    exact absurd (hok (stepEvent (sourceOf st) (destinationOf st) k false p)
      (by simp [failTrace])) (by simp [stepEvent])

/-! ## Properties of the migration handler -/

/-- C1: in `moveHandler` the bucket whose listing has strictly more entries is the source
and the other the destination; on equal counts the AWS bucket is the source. The choice
is a function of the two lengths alone, and listings with the two counts exchanged give
the opposite direction whenever the counts differ. -/
theorem chooseDirection_by_count (awsBucketFiles gcpBucketFiles : List Key) :
    (gcpBucketFiles.length < awsBucketFiles.length →
      chooseDirection awsBucketFiles gcpBucketFiles = (.aws, .gcp, awsBucketFiles)) ∧
    (awsBucketFiles.length < gcpBucketFiles.length →
      chooseDirection awsBucketFiles gcpBucketFiles = (.gcp, .aws, gcpBucketFiles)) ∧
    (awsBucketFiles.length = gcpBucketFiles.length →
      chooseDirection awsBucketFiles gcpBucketFiles = (.aws, .gcp, awsBucketFiles)) ∧
    (∀ a g : List Key, a.length = awsBucketFiles.length → g.length = gcpBucketFiles.length →
      (chooseDirection a g).1 = (chooseDirection awsBucketFiles gcpBucketFiles).1 ∧
      (chooseDirection a g).2.1 = (chooseDirection awsBucketFiles gcpBucketFiles).2.1) ∧
    (∀ a g : List Key, a.length = gcpBucketFiles.length → g.length = awsBucketFiles.length →
      awsBucketFiles.length ≠ gcpBucketFiles.length →
      (chooseDirection a g).1 = (chooseDirection awsBucketFiles gcpBucketFiles).2.1 ∧
      (chooseDirection a g).2.1 = (chooseDirection awsBucketFiles gcpBucketFiles).1) := by
  refine ⟨?_, ?_, ?_, ?_, ?_⟩
  · intro h
    have : ¬ gcpBucketFiles.length > awsBucketFiles.length := by omega
    simp [chooseDirection, this]
  · intro h
    have : gcpBucketFiles.length > awsBucketFiles.length := h
    simp [chooseDirection, this]
  · intro h
    have : ¬ gcpBucketFiles.length > awsBucketFiles.length := by omega
    simp [chooseDirection, this]
  · intro a g ha hg
    unfold chooseDirection
    rw [ha, hg]
    by_cases h : gcpBucketFiles.length > awsBucketFiles.length <;> simp [h]
  · intro a g ha hg hne
    unfold chooseDirection
    rw [ha, hg]
    by_cases h : gcpBucketFiles.length > awsBucketFiles.length
    · have h' : ¬ awsBucketFiles.length > gcpBucketFiles.length := by omega
      simp [h, h']
    · have h' : awsBucketFiles.length > gcpBucketFiles.length := by omega
      simp [h, h']

/-- Witness for C1: three AWS keys against one GCP key, and the exchanged counts. -/
theorem chooseDirection_by_count_witness :
    chooseDirection ["a", "b", "c"] ["x"] = (.aws, .gcp, ["a", "b", "c"]) ∧
    ((chooseDirection ["p"] ["q", "r", "s"]).1 = (chooseDirection ["a", "b", "c"] ["x"]).2.1 ∧
      (chooseDirection ["p"] ["q", "r", "s"]).2.1 = (chooseDirection ["a", "b", "c"] ["x"]).1) :=
  ⟨(chooseDirection_by_count ["a", "b", "c"] ["x"]).1 (by decide),
   (chooseDirection_by_count ["a", "b", "c"] ["x"]).2.2.2.2 ["p"] ["q", "r", "s"]
      (by decide) (by decide) (by decide)⟩

/-- C8: `moveHandler` answers with the redirect to "/" (303 See Other) exactly when both
listings and every step of every key of the source listing return no error, in which case
the log is the whole plan. Otherwise the log ends with the first failing call, every
call before it succeeded, and the answer is status 500 with the fixed phrase of the
phase of that call. -/
theorem moveHandler_answer (env : Env) (st : State) :
    ((moveHandler env st).response = .redirect "/" StatusSeeOther ↔
      ∀ e ∈ (moveHandler env st).trace, e.ok = true) ∧
    ((moveHandler env st).response = .redirect "/" StatusSeeOther ↔
      (moveHandler env st).trace
        = listed ++ okPlan (sourceOf st) (destinationOf st) (sourceFilesOf st)) ∧
    ((moveHandler env st).response ≠ .redirect "/" StatusSeeOther →
      ∃ tr e, (moveHandler env st).trace = tr ++ [e] ∧ (∀ e' ∈ tr, e'.ok = true) ∧
        e.ok = false ∧
        (moveHandler env st).response
          = .error StatusInternalServerError (failurePhrase e.op.phase)) ∧
    StatusSeeOther = 303 ∧ StatusInternalServerError = 500 := by
  have hplan : ∀ e ∈ listed ++ okPlan (sourceOf st) (destinationOf st) (sourceFilesOf st),
      e.ok = true := by
    intro e he
    rcases List.mem_append.1 he with he | he
    · exact listed_all_ok e he
    · exact okPlan_all_ok _ _ _ e he
  have hfail : (moveHandler env st).response ≠ .redirect "/" StatusSeeOther →
      ∃ tr e, (moveHandler env st).trace = tr ++ [e] ∧ (∀ e' ∈ tr, e'.ok = true) ∧
        e.ok = false ∧
        (moveHandler env st).response
          = .error StatusInternalServerError (failurePhrase e.op.phase) := by
    intro hne
    rcases moveHandler_cases env st with h | h | h | ⟨pre, k, post, p, _, h, _⟩
    · exact ⟨[], ⟨Op.list .aws, false⟩, by rw [h]; rfl, by simp, rfl, by rw [h]; rfl⟩
    · refine ⟨[⟨Op.list .aws, true⟩], ⟨Op.list .gcp, false⟩, by rw [h]; rfl, ?_, rfl,
        by rw [h]; rfl⟩
      intro e he
      rw [List.mem_singleton] at he
      rw [he]
    · rw [h] at hne
      exact absurd rfl hne
    · refine ⟨listed ++ (okPlan (sourceOf st) (destinationOf st) pre
          ++ (stepsBefore p).map (stepEvent (sourceOf st) (destinationOf st) k true)),
        stepEvent (sourceOf st) (destinationOf st) k false p, ?_, ?_, rfl, by rw [h]; rfl⟩
      · rw [h]
        simp [failTrace]
      · intro e he
        rcases List.mem_append.1 he with he | he
        · exact listed_all_ok e he
        · rcases List.mem_append.1 he with he | he
          · exact okPlan_all_ok _ _ _ e he
          · exact failTrace_init_ok _ _ _ _ e he
  have hiff : (moveHandler env st).response = .redirect "/" StatusSeeOther ↔
      ∀ e ∈ (moveHandler env st).trace, e.ok = true := by
    constructor
    · intro hr
      by_contra hcon
      rcases moveHandler_cases env st with h | h | h | ⟨pre, k, post, p, _, h, _⟩
      · rw [h] at hr; simp at hr
      · rw [h] at hr; simp at hr
      · rw [h] at hcon; exact hcon hplan
      · rw [h] at hr; simp at hr
    · intro hok
      rw [moveHandler_of_all_ok env st hok]
  refine ⟨hiff, ?_, hfail, rfl, rfl⟩
  rw [hiff]
  constructor
  · intro hok
    rw [moveHandler_of_all_ok env st hok]
  · intro htr
    rw [htr]
    exact hplan

/-- Witness for C8: with no failing call the answer is the redirect; with a failing copy
the answer is status 500 with the phrase of the copy phase. -/
theorem moveHandler_answer_witness :
    (moveHandler Env.healthy ⟨[("a", [1])], []⟩).response = .redirect "/" StatusSeeOther ∧
    (moveHandler ⟨false, false, fun _ p => decide (p = Step.copy), fun _ => none⟩
      ⟨[("a", [1])], []⟩).response
      = .error 500 "failed to copy file" :=
  ⟨(moveHandler_answer Env.healthy ⟨[("a", [1])], []⟩).1.2 (by decide), by decide⟩

/-- C2: when every call of a request succeeds, every key of the original source listing
is in the destination listing afterwards and none of them is in the source listing. -/
theorem moveHandler_moves_every_key (env : Env) (st : State)
    (hok : ∀ e ∈ (moveHandler env st).trace, e.ok = true) (k : Key)
    (hk : k ∈ (st.get (sourceOf st)).keys) :
    k ∈ ((moveHandler env st).state.get (destinationOf st)).keys ∧
    k ∉ ((moveHandler env st).state.get (sourceOf st)).keys := by
  have hne := source_ne_destination st
  have hk' : k ∈ sourceFilesOf st := by rw [sourceFilesOf_eq]; exact hk
  rw [moveHandler_of_all_ok env st hok]
  simp only
  constructor
  · rw [← Bucket.read_isSome_iff, moveAll_dst_read _ _ hne]
    rw [← Bucket.read_isSome_iff] at hk
    simp only [hk', if_true]
    cases hr : (st.get (sourceOf st)).read k with
    | none => rw [hr] at hk; exact absurd hk (by simp)
    | some v => rfl
  · rw [← Bucket.read_eq_none_iff, moveAll_src_read _ _ hne]
    simp [hk']

/-- Witness for C2: source {a, b, c} and an empty destination end with destination
{a, b, c} and an empty source. -/
theorem moveHandler_moves_every_key_witness :
    ("b" ∈ ((moveHandler Env.healthy
        ⟨[("a", [1]), ("b", [2]), ("c", [3])], []⟩).state.get .gcp).keys ∧
      "b" ∉ ((moveHandler Env.healthy
        ⟨[("a", [1]), ("b", [2]), ("c", [3])], []⟩).state.get .aws).keys) ∧
    (moveHandler Env.healthy ⟨[("a", [1]), ("b", [2]), ("c", [3])], []⟩).state
      = ⟨[], [("a", [1]), ("b", [2]), ("c", [3])]⟩ :=
  ⟨moveHandler_moves_every_key Env.healthy ⟨[("a", [1]), ("b", [2]), ("c", [3])], []⟩
    (by decide) "b" (by decide), by decide⟩

theorem mem_okTrace (src dst : Store) (k : Key) (e : Event) :
    e ∈ okTrace src dst k ↔ ∃ q, e = stepEvent src dst k true q := by
  constructor
  · intro he
    simp only [okTrace, List.mem_map] at he
    obtain ⟨q, _, rfl⟩ := he
    exact ⟨q, rfl⟩
  · rintro ⟨q, rfl⟩
    simp only [okTrace, List.mem_map]
    exact ⟨q, by cases q <;> simp [stepsBefore], rfl⟩

theorem mem_failTrace (src dst : Store) (k : Key) (p : Step) (e : Event) :
    e ∈ failTrace src dst k p ↔
      (∃ q ∈ stepsBefore p, e = stepEvent src dst k true q) ∨ e = stepEvent src dst k false p := by
  simp only [failTrace, List.mem_append, List.mem_map, List.mem_singleton]
  constructor
  · rintro (⟨q, hq, rfl⟩ | h)
    · exact Or.inl ⟨q, hq, rfl⟩
    · exact Or.inr h
  · rintro (⟨q, hq, rfl⟩ | h)
    · exact Or.inl ⟨q, hq, rfl⟩
    · exact Or.inr h

theorem delete_not_before (p : Step) : Step.delete ∉ stepsBefore p := by
  cases p <;> simp [stepsBefore]

theorem failState_src (src dst : Store) (h : src ≠ dst) (k : Key) (p : Step)
    (r : Option Bytes) (st : State) :
    (failState src dst k p r st).get src = st.get src := by
  unfold failState
  split
  · exact State.get_set_of_ne _ _ _ _ (Ne.symm h)
  · cases r with
    | none => rfl
    | some stored => exact State.get_set_of_ne _ _ _ _ (Ne.symm h)
  · rfl

theorem failState_dst_read (src dst : Store) (k j : Key) (p : Step) (r : Option Bytes)
    (st : State) (h : j ≠ k ∨ (st.get src).read k = none) :
    ((failState src dst k p r st).get dst).read j = (st.get dst).read j := by
  unfold failState
  split
  · rename_i c hc
    rcases h with h | h
    · rw [State.get_set_same, Bucket.read_write_of_ne _ _ _ _ h]
    · rw [h] at hc; exact absurd hc (by simp)
  · rename_i c hc
    cases r with
    | none => rfl
    | some stored =>
      rcases h with h | h
      · simp only [State.get_set_same, Bucket.read_write_of_ne _ _ _ _ h]
      · rw [h] at hc; exact absurd hc (by simp)
  · rfl

theorem failState_of_early (src dst : Store) (k : Key) (p : Step) (r : Option Bytes)
    (st : State) (h : p ≠ .delete) (h2 : p ≠ .closeWriter) : failState src dst k p r st = st := by
  cases p <;> first | rfl | exact absurd rfl h | exact absurd rfl h2

theorem failState_closeWriter_dst_read (src dst : Store) (k : Key) (r : Option Bytes)
    (st : State) (c : Bytes) (hc : (st.get src).read k = some c) :
    ((failState src dst k .closeWriter r st).get dst).read k
      = (match r with
          | some stored => some stored
          | none => (st.get dst).read k) := by
  unfold failState
  rw [hc]
  cases r with
  | none => rfl
  | some stored => simp only [State.get_set_same, Bucket.read_write_self]

theorem nodup_split (pre post : List Key) (k : Key) (h : (pre ++ k :: post).Nodup) :
    k ∉ pre ∧ k ∉ post ∧ ∀ j ∈ post, j ∉ pre ∧ j ≠ k := by
  rw [List.nodup_append, List.nodup_cons] at h
  obtain ⟨_, ⟨h2, _⟩, h3⟩ := h
  exact ⟨fun hc => h3 hc (List.mem_cons_self _ _), h2, fun j hj =>
    ⟨fun hc => h3 hc (List.mem_cons_of_mem _ hj), fun hc => h2 (hc ▸ hj)⟩⟩

theorem split_unique (k : Key) (pre pre2 post post2 : List Key) (h1 : k ∉ pre)
    (h2 : k ∉ pre2) (h : pre ++ k :: post = pre2 ++ k :: post2) : pre = pre2 ∧ post = post2 := by
  induction pre generalizing pre2 with
  | nil =>
    cases pre2 with
    | nil => simpa using h
    | cons x xs =>
      simp only [List.nil_append, List.cons_append, List.cons.injEq] at h
      exact absurd (h.1 ▸ List.mem_cons_self _ _) h2
  | cons a as ih =>
    cases pre2 with
    | nil =>
      simp only [List.nil_append, List.cons_append, List.cons.injEq] at h
      exact absurd (h.1 ▸ List.mem_cons_self _ _) h1
    | cons x xs =>
      simp only [List.cons_append, List.cons.injEq] at h
      obtain ⟨hax, ht⟩ := h
      obtain ⟨e1, e2⟩ := ih xs (fun hc => h1 (List.mem_cons_of_mem _ hc))
        (fun hc => h2 (List.mem_cons_of_mem _ hc)) ht
      exact ⟨by rw [hax, e1], e2⟩

theorem sourceFilesOf_nodup (st : State) (hA : st.aws.keys.Nodup) (hG : st.gcp.keys.Nodup) :
    (sourceFilesOf st).Nodup := by
  rcases direction_cases st with ⟨_, _, h3, _⟩ | ⟨_, _, h3, _⟩ <;> rw [h3] <;> assumption

theorem first_fault_unique (f : Step → Bool) (p p2 : Step) (h1 : f p = true)
    (h2 : f p2 = true) (b1 : ∀ q ∈ stepsBefore p, f q = false)
    (b2 : ∀ q ∈ stepsBefore p2, f q = false) : p = p2 := by
  cases p <;> cases p2 <;> simp_all [stepsBefore]

theorem reader_finds_key (st : State) (hA : st.aws.keys.Nodup) (hG : st.gcp.keys.Nodup)
    (pre post : List Key) (k : Key) (hfiles : sourceFilesOf st = pre ++ k :: post) :
    ((moveAll (sourceOf st) (destinationOf st) pre st).get (sourceOf st)).read k
      = (st.get (sourceOf st)).read k ∧
    (st.get (sourceOf st)).read k ≠ none := by
  have hne := source_ne_destination st
  have hnd : (pre ++ k :: post).Nodup := hfiles ▸ sourceFilesOf_nodup st hA hG
  have hk : k ∉ pre := (nodup_split pre post k hnd).1
  constructor
  · rw [moveAll_src_read _ _ hne]
    simp [hk]
  · rw [Ne, Bucket.read_eq_none_iff, ← sourceFilesOf_eq, hfiles]
    simp

theorem moveHandler_no_fault (env : Env) (st : State)
    (hA : st.aws.keys.Nodup) (hG : st.gcp.keys.Nodup)
    (h1 : env.listAwsFails = false) (h2 : env.listGcpFails = false)
    (hall : ∀ i < (sourceFilesOf st).length, ∀ q, env.faults i q = false) :
    moveHandler env st
      = ⟨moveAll (sourceOf st) (destinationOf st) (sourceFilesOf st) st,
          listed ++ okPlan (sourceOf st) (destinationOf st) (sourceFilesOf st),
          .redirect "/" StatusSeeOther⟩ := by
  rcases moveHandler_cases_env env st with
    ⟨g, _⟩ | ⟨_, g, _⟩ | ⟨_, _, h, _⟩ | ⟨pre, k, post, p, _, _, hfiles, _, hwhy, _, _⟩
  · rw [h1] at g; exact absurd g (by simp)
  · rw [h2] at g; exact absurd g (by simp)
  · exact h
  · exfalso
    rcases hwhy with hwhy | hwhy
    · rw [hall pre.length (by rw [hfiles]; simp) p] at hwhy
      exact absurd hwhy (by simp)
    · obtain ⟨e1, e2⟩ := reader_finds_key st hA hG pre post k hfiles
      rw [e1] at hwhy
      exact e2 hwhy

theorem moveHandler_first_fault (env : Env) (st : State)
    (hA : st.aws.keys.Nodup) (hG : st.gcp.keys.Nodup)
    (h1 : env.listAwsFails = false) (h2 : env.listGcpFails = false)
    (pre post : List Key) (k : Key) (p : Step)
    (hfiles : sourceFilesOf st = pre ++ k :: post)
    (hall : ∀ i < pre.length, ∀ q, env.faults i q = false)
    (hbefore : ∀ q ∈ stepsBefore p, env.faults pre.length q = false)
    (hfault : env.faults pre.length p = true) :
    moveHandler env st
      = ⟨failState (sourceOf st) (destinationOf st) k p (env.closeResidue pre.length)
            (moveAll (sourceOf st) (destinationOf st) pre st),
          listed ++ (okPlan (sourceOf st) (destinationOf st) pre
            ++ failTrace (sourceOf st) (destinationOf st) k p),
          .error StatusInternalServerError (failurePhrase (.step p))⟩ := by
  rcases moveHandler_cases_env env st with
    ⟨g, _⟩ | ⟨_, g, _⟩ | ⟨_, _, _, hall2⟩ |
    ⟨pre2, k2, post2, p2, _, _, hfiles2, h, hwhy2, hbefore2, hall2⟩
  · rw [h1] at g; exact absurd g (by simp)
  · rw [h2] at g; exact absurd g (by simp)
  · rw [hall2 pre.length (by rw [hfiles]; simp) p] at hfault
    exact absurd hfault (by simp)
  · have hfault2 : env.faults pre2.length p2 = true := by
      rcases hwhy2 with hwhy2 | hwhy2
      · exact hwhy2
      · obtain ⟨e1, e2⟩ := reader_finds_key st hA hG pre2 post2 k2 hfiles2
        rw [e1] at hwhy2
        exact absurd hwhy2 e2
    rcases Nat.lt_trichotomy pre2.length pre.length with hlt | heq | hgt
    · rw [hall pre2.length hlt p2] at hfault2
      exact absurd hfault2 (by simp)
    · have hsplit : pre2 ++ k2 :: post2 = pre ++ k :: post := hfiles2.symm.trans hfiles
      obtain ⟨e1, e2⟩ := List.append_inj hsplit heq
      simp only [List.cons.injEq] at e2
      obtain ⟨e2, _⟩ := e2
      subst e1 e2
      have hp : p = p2 := first_fault_unique (env.faults pre2.length) p p2 hfault hfault2
        hbefore hbefore2
      subst hp
      exact h
    · rw [hall2 pre.length hgt p] at hfault
      exact absurd hfault (by simp)

theorem moveHandler_log_order (env : Env) (st : State) :
    ((moveHandler env st).trace.map Event.op
      <+: (listed ++ okPlan (sourceOf st) (destinationOf st) (sourceFilesOf st)).map Event.op) ∧
    (∀ e ∈ (moveHandler env st).trace.dropLast, e.ok = true) ∧
    (∀ s k b, (⟨Op.step .delete s k, b⟩ : Event) ∈ (moveHandler env st).trace →
      s = sourceOf st ∧
      ∀ p ∈ stepsBefore .delete,
        stepEvent (sourceOf st) (destinationOf st) k true p ∈ (moveHandler env st).trace) ∧
    (∀ k v, (st.get (sourceOf st)).read k = some v →
      ((moveHandler env st).state.get (sourceOf st)).read k = some v ∨
      ((moveHandler env st).state.get (destinationOf st)).read k = some v) := by
  have hne := source_ne_destination st
  have hdel : ∀ (files : List Key) s k b,
      (⟨Op.step .delete s k, b⟩ : Event) ∈ okPlan (sourceOf st) (destinationOf st) files →
      s = sourceOf st ∧ ∀ p ∈ stepsBefore .delete,
        stepEvent (sourceOf st) (destinationOf st) k true p
          ∈ okPlan (sourceOf st) (destinationOf st) files := by
    intro files s k b he
    rw [mem_okPlan] at he
    obtain ⟨k', hk', he⟩ := he
    rw [mem_okTrace] at he
    obtain ⟨q, hq⟩ := he
    simp only [stepEvent, Event.mk.injEq, Op.step.injEq] at hq
    obtain ⟨⟨hq1, hq2, hq3⟩, _⟩ := hq
    subst hq1 hq3
    refine ⟨hq2, fun p _ => ?_⟩
    rw [mem_okPlan]
    exact ⟨k, hk', (mem_okTrace _ _ _ _).2 ⟨p, rfl⟩⟩
  rcases moveHandler_cases env st with h | h | h | ⟨pre, k', post, p, hfiles, h, _⟩
  · rw [h]
    refine ⟨by simp [listed], by simp, by simp, fun k v hv => Or.inl hv⟩
  · rw [h]
    refine ⟨by simp [listed], ?_, by simp, fun k v hv => Or.inl hv⟩
    intro e he
    have : e = ⟨Op.list .aws, true⟩ := by simpa using he
    rw [this]
  · rw [h]
    refine ⟨List.prefix_refl _, ?_, ?_, ?_⟩
    · intro e he
      have he' := List.mem_of_mem_dropLast he
      rcases List.mem_append.1 he' with he' | he'
      · exact listed_all_ok e he'
      · exact okPlan_all_ok _ _ _ e he'
    · intro s k b he
      simp only at he
      rcases List.mem_append.1 he with he | he
      · simp [listed] at he
      · obtain ⟨h1, h2⟩ := hdel _ s k b he
        exact ⟨h1, fun p hp => List.mem_append_right _ (h2 p hp)⟩
    · intro k v hv
      simp only
      by_cases hk : k ∈ sourceFilesOf st
      · right
        rw [moveAll_dst_read _ _ hne, hv]
        simp [hk]
      · left
        rw [moveAll_src_read _ _ hne, ← hv]
        simp [hk]
  · rw [h]
    refine ⟨?_, ?_, ?_, ?_⟩
    · obtain ⟨t, ht⟩ := failTrace_ops_le (sourceOf st) (destinationOf st) k' p
      refine ⟨t ++ (okPlan (sourceOf st) (destinationOf st) post).map Event.op, ?_⟩
      rw [hfiles, okPlan_append]
      simp only [okPlan, List.map_append, List.append_assoc]
      rw [← List.append_assoc _ t, ht]
    · intro e he
      simp only [failTrace_last] at he
      rw [← List.append_assoc, ← List.append_assoc, List.dropLast_concat] at he
      rcases List.mem_append.1 he with he | he
      · rcases List.mem_append.1 he with he | he
        · exact listed_all_ok e he
        · exact okPlan_all_ok _ _ _ e he
      · exact failTrace_init_ok _ _ _ _ e he
    · intro s k b he
      simp only at he
      rcases List.mem_append.1 he with he | he
      · simp [listed] at he
      rcases List.mem_append.1 he with he | he
      · obtain ⟨h1, h2⟩ := hdel _ s k b he
        exact ⟨h1, fun q hq =>
          List.mem_append_right _ (List.mem_append_left _ (h2 q hq))⟩
      · rw [mem_failTrace] at he
        rcases he with ⟨q, hq, he⟩ | he
        · simp only [stepEvent, Event.mk.injEq, Op.step.injEq] at he
          obtain ⟨⟨hq1, _, _⟩, _⟩ := he
          rw [← hq1] at hq
          exact absurd hq (delete_not_before p)
        · simp only [stepEvent, Event.mk.injEq, Op.step.injEq] at he
          obtain ⟨⟨hq1, hq2, hq3⟩, _⟩ := he
          subst hq1 hq3
          refine ⟨hq2, fun q hq => ?_⟩
          apply List.mem_append_right
          apply List.mem_append_right
          rw [mem_failTrace]
          exact Or.inl ⟨q, hq, rfl⟩
    · intro k v hv
      simp only
      by_cases hk : k ∈ pre
      · right
        have hsrc : ((moveAll (sourceOf st) (destinationOf st) pre st).get (sourceOf st)).read k
            = none := by
          rw [moveAll_src_read _ _ hne]; simp [hk]
        rw [failState_dst_read, moveAll_dst_read _ _ hne, hv]
        · simp [hk]
        · by_cases hkk : k = k'
          · right; rw [← hkk]; exact hsrc
          · left; exact hkk
      · left
        rw [failState_src _ _ hne, moveAll_src_read _ _ hne, ← hv]
        simp [hk]

/-- C3: the calls of a request are issued in the order of the plan (the two listings,
then for each key of the source listing: open reader on the source, open writer on the
destination, copy, close reader, close writer, delete from the source), every call but
the last of the log succeeded, and a delete appears in the log only after the five
earlier steps of the same key succeeded. The six steps are performed for every key until
a call fails: the log is the whole plan or ends with a failed call; on stores with
distinct keys it is the whole plan when no call of the schedule fails, and the plan up to
and including the first failing call otherwise. At the end of every request, successful
or aborted, every object of the original source is still in the source with its bytes or
is in the destination with the bytes the source held. -/
theorem moveHandler_copy_then_delete (env : Env) (st : State) :
    ((moveHandler env st).trace.map Event.op
      <+: (listed ++ okPlan (sourceOf st) (destinationOf st) (sourceFilesOf st)).map Event.op) ∧
    (∀ e ∈ (moveHandler env st).trace.dropLast, e.ok = true) ∧
    (∀ s k b, (⟨Op.step .delete s k, b⟩ : Event) ∈ (moveHandler env st).trace →
      s = sourceOf st ∧
      ∀ p ∈ stepsBefore .delete,
        stepEvent (sourceOf st) (destinationOf st) k true p ∈ (moveHandler env st).trace) ∧
    (∀ k v, (st.get (sourceOf st)).read k = some v →
      ((moveHandler env st).state.get (sourceOf st)).read k = some v ∨
      ((moveHandler env st).state.get (destinationOf st)).read k = some v) ∧
    ((moveHandler env st).trace
        = listed ++ okPlan (sourceOf st) (destinationOf st) (sourceFilesOf st) ∨
      ∃ tr e, (moveHandler env st).trace = tr ++ [e] ∧ e.ok = false) ∧
    (st.aws.keys.Nodup → st.gcp.keys.Nodup →
      env.listAwsFails = false → env.listGcpFails = false →
      (∀ i < (sourceFilesOf st).length, ∀ q, env.faults i q = false) →
      (moveHandler env st).trace
        = listed ++ okPlan (sourceOf st) (destinationOf st) (sourceFilesOf st)) ∧
    (st.aws.keys.Nodup → st.gcp.keys.Nodup →
      env.listAwsFails = false → env.listGcpFails = false →
      ∀ pre k post p, sourceFilesOf st = pre ++ k :: post →
      (∀ i < pre.length, ∀ q, env.faults i q = false) →
      (∀ q ∈ stepsBefore p, env.faults pre.length q = false) →
      env.faults pre.length p = true →
      (moveHandler env st).trace
        = listed ++ (okPlan (sourceOf st) (destinationOf st) pre
            ++ failTrace (sourceOf st) (destinationOf st) k p)) := by
  obtain ⟨c1, c2, c3, c4⟩ := moveHandler_log_order env st
  refine ⟨c1, c2, c3, c4, ?_, ?_, ?_⟩
  · rcases moveHandler_cases env st with h | h | h | ⟨pre, k, post, p, _, h, _⟩
    · exact Or.inr ⟨[], ⟨Op.list .aws, false⟩, by rw [h]; rfl, rfl⟩
    · exact Or.inr ⟨[⟨Op.list .aws, true⟩], ⟨Op.list .gcp, false⟩, by rw [h]; rfl, rfl⟩
    · exact Or.inl (by rw [h])
    · refine Or.inr ⟨listed ++ (okPlan (sourceOf st) (destinationOf st) pre
          ++ (stepsBefore p).map (stepEvent (sourceOf st) (destinationOf st) k true)),
        stepEvent (sourceOf st) (destinationOf st) k false p, ?_, rfl⟩
      rw [h]
      simp [failTrace]
  · intro hA hG h1 h2 hall
    rw [moveHandler_no_fault env st hA hG h1 h2 hall]
  · intro hA hG h1 h2 pre k post p hfiles hall hbefore hfault
    rw [moveHandler_first_fault env st hA hG h1 h2 pre post k p hfiles hall hbefore hfault]

/-- C4 (as amended): when the log of a request ends with a failed writer call (open,
copy or close) for the key `k` at position `i` of the source listing, the answer is
status 500, `k` is still in the source with its bytes, every key before position `i`
is in the destination and no longer in the source, and no call was made for any key
after position `i`. When opening the writer or copying failed, the destination's entry
for `k` is what it was before the request (absent if it was absent); when closing the
writer failed, it is what the failed close stored, whole or partial, or what it was
before the request if the close stored nothing. -/
theorem moveHandler_writer_failure (env : Env) (st : State)
    (hA : st.aws.keys.Nodup) (hG : st.gcp.keys.Nodup)
    (pre post : List Key) (k : Key) (hfiles : sourceFilesOf st = pre ++ k :: post)
    (p : Step) (hp : p = .newWriter ∨ p = .copy ∨ p = .closeWriter)
    (hfail : (moveHandler env st).trace.getLast?
      = some (stepEvent (sourceOf st) (destinationOf st) k false p)) :
    (moveHandler env st).response
      = .error StatusInternalServerError (failurePhrase (.step p)) ∧
    k ∈ ((moveHandler env st).state.get (sourceOf st)).keys ∧
    ((moveHandler env st).state.get (sourceOf st)).read k = (st.get (sourceOf st)).read k ∧
    (p ≠ .closeWriter →
      ((moveHandler env st).state.get (destinationOf st)).read k
        = (st.get (destinationOf st)).read k ∧
      (k ∈ ((moveHandler env st).state.get (destinationOf st)).keys ↔
        k ∈ (st.get (destinationOf st)).keys)) ∧
    (p = .closeWriter →
      ((moveHandler env st).state.get (destinationOf st)).read k
        = (match env.closeResidue pre.length with
            | some stored => some stored
            | none => (st.get (destinationOf st)).read k)) ∧
    (∀ j ∈ pre, j ∈ ((moveHandler env st).state.get (destinationOf st)).keys ∧
      j ∉ ((moveHandler env st).state.get (sourceOf st)).keys) ∧
    (∀ j ∈ post, ∀ e ∈ (moveHandler env st).trace, ∀ q s, e.op ≠ Op.step q s j) := by
  have hne := source_ne_destination st
  have hnd : (pre ++ k :: post).Nodup := hfiles ▸ sourceFilesOf_nodup st hA hG
  obtain ⟨hkpre, _, hpost⟩ := nodup_split pre post k hnd
  have hpd : p ≠ .delete := by rcases hp with h | h | h <;> rw [h] <;> simp
  rcases moveHandler_cases env st with h | h | h | ⟨pre2, k2, post2, p2, hfiles2, h, _⟩
  · rw [h] at hfail
    simp [stepEvent] at hfail
  · rw [h] at hfail
    simp [stepEvent] at hfail
  · rw [h] at hfail
    have hmem := List.mem_of_getLast?_eq_some hfail
    have hok : (stepEvent (sourceOf st) (destinationOf st) k false p).ok = true := by
      rcases List.mem_append.1 hmem with he | he
      · exact listed_all_ok _ he
      · exact okPlan_all_ok _ _ _ _ he
    exact absurd hok (by simp [stepEvent])
  · have hlast : (moveHandler env st).trace.getLast?
        = some (stepEvent (sourceOf st) (destinationOf st) k2 false p2) := by
      rw [h]
      simp only [failTrace_last]
      rw [← List.append_assoc, ← List.append_assoc, List.getLast?_concat]
    rw [hlast] at hfail
    simp only [stepEvent, Option.some.injEq, Event.mk.injEq, Op.step.injEq, and_true] at hfail
    obtain ⟨hp2, _, hk2⟩ := hfail
    subst hp2 hk2
    have hkpre2 : k2 ∉ pre2 := (nodup_split pre2 post2 k2 (hfiles2 ▸ hfiles ▸ hnd)).1
    obtain ⟨e1, e2⟩ := split_unique k2 pre pre2 post post2 hkpre hkpre2 (hfiles.symm.trans hfiles2)
    subst e1 e2
    have hkeys : ∀ j, j ∈ pre ++ k2 :: post ↔ j ∈ (st.get (sourceOf st)).keys := by
      intro j; rw [← hfiles, sourceFilesOf_eq]
    obtain ⟨hmid, hsome⟩ := reader_finds_key st hA hG pre post k2 hfiles
    have hsrcread : ((moveHandler env st).state.get (sourceOf st)).read k2
        = (st.get (sourceOf st)).read k2 := by
      rw [h]
      simp only [failState_src _ _ hne]
      exact hmid
    have hdstmid : ((moveAll (sourceOf st) (destinationOf st) pre st).get
        (destinationOf st)).read k2 = (st.get (destinationOf st)).read k2 := by
      rw [moveAll_dst_read _ _ hne]
      simp [hkpre]
    refine ⟨by rw [h], ?_, hsrcread, ?_, ?_, ?_, ?_⟩
    · rw [← Bucket.read_isSome_iff, hsrcread, Bucket.read_isSome_iff, ← hkeys]
      simp
    · intro hpc
      have hdstread : ((moveHandler env st).state.get (destinationOf st)).read k2
          = (st.get (destinationOf st)).read k2 := by
        rw [h]
        simp only [failState_of_early _ _ _ _ _ _ hpd hpc]
        exact hdstmid
      exact ⟨hdstread, by rw [← Bucket.read_isSome_iff, hdstread, Bucket.read_isSome_iff]⟩
    · intro hpc
      subst hpc
      rw [h]
      simp only
      cases hc : ((moveAll (sourceOf st) (destinationOf st) pre st).get (sourceOf st)).read k2 with
      | none => rw [hmid] at hc; exact absurd hc hsome
      | some c =>
        rw [failState_closeWriter_dst_read _ _ _ _ _ c hc, hdstmid]
    · intro j hj
      have hjs : j ∈ (st.get (sourceOf st)).keys := (hkeys j).1 (by simp [hj])
      have hjk : j ≠ k2 := fun hc => hkpre (hc ▸ hj)
      rw [h]
      simp only
      constructor
      · rw [← Bucket.read_isSome_iff, failState_dst_read _ _ _ _ _ _ _ (Or.inl hjk),
          moveAll_dst_read _ _ hne]
        rw [← Bucket.read_isSome_iff] at hjs
        simp only [hj, if_true]
        cases hr : (st.get (sourceOf st)).read j with
        | none => rw [hr] at hjs; exact absurd hjs (by simp)
        | some v => rfl
      · rw [← Bucket.read_eq_none_iff, failState_src _ _ hne, moveAll_src_read _ _ hne]
        simp [hj]
    · intro j hj e he q s hop
      obtain ⟨hjpre, hjk⟩ := hpost j hj
      rw [h] at he
      simp only at he
      rcases List.mem_append.1 he with he | he
      · simp only [listed, List.mem_cons, List.mem_singleton, List.not_mem_nil, or_false] at he
        rcases he with rfl | rfl <;> simp at hop
      rcases List.mem_append.1 he with he | he
      · rw [mem_okPlan] at he
        obtain ⟨k3, hk3, he⟩ := he
        rw [mem_okTrace] at he
        obtain ⟨q3, rfl⟩ := he
        simp only [stepEvent, Op.step.injEq] at hop
        exact hjpre (hop.2.2 ▸ hk3)
      · rw [mem_failTrace] at he
        rcases he with ⟨q3, _, rfl⟩ | rfl
        · simp only [stepEvent, Op.step.injEq] at hop
          exact hjk hop.2.2.symm
        · simp only [stepEvent, Op.step.injEq] at hop
          exact hjk hop.2.2.symm

/-- Counterexample to C4 as stated: in the first request the destination already holds
the key whose writer cannot be opened, in the second the failing close of the writer
has stored the object; in both the key is present in the destination after the aborted
request. -/
theorem moveHandler_writer_failure_counterexample :
    (sourceFilesOf ⟨[("a", [1]), ("b", [2])], [("a", [9])]⟩ = ["a", "b"] ∧
      (moveHandler ⟨false, false, fun i p => decide (i = 0 ∧ p = Step.newWriter), fun _ => none⟩
        ⟨[("a", [1]), ("b", [2])], [("a", [9])]⟩).trace.getLast?
          = some ⟨Op.step .newWriter .gcp "a", false⟩ ∧
      ¬ ("a" ∉ ((moveHandler
          ⟨false, false, fun i p => decide (i = 0 ∧ p = Step.newWriter), fun _ => none⟩
          ⟨[("a", [1]), ("b", [2])], [("a", [9])]⟩).state.get .gcp).keys)) ∧
    (sourceFilesOf ⟨[("a", [1])], []⟩ = ["a"] ∧
      (moveHandler
        ⟨false, false, fun i p => decide (i = 0 ∧ p = Step.closeWriter), fun _ => some [1]⟩
        ⟨[("a", [1])], []⟩).trace.getLast?
          = some ⟨Op.step .closeWriter .gcp "a", false⟩ ∧
      ¬ ("a" ∉ ((moveHandler
          ⟨false, false, fun i p => decide (i = 0 ∧ p = Step.closeWriter), fun _ => some [1]⟩
          ⟨[("a", [1])], []⟩).state.get .gcp).keys)) := by
  decide

/-- Witness for C4 (as amended): the writer for "a" cannot be opened while the destination
already holds an object "a"; and the close of the writer for "a" fails after storing the
first byte of the object. -/
theorem moveHandler_writer_failure_witness :
    (moveHandler ⟨false, false, fun i p => decide (i = 0 ∧ p = Step.newWriter), fun _ => none⟩
      ⟨[("a", [1]), ("b", [2])], [("a", [9])]⟩).response
        = .error StatusInternalServerError (failurePhrase (.step .newWriter)) ∧
    "a" ∈ ((moveHandler
      ⟨false, false, fun i p => decide (i = 0 ∧ p = Step.newWriter), fun _ => none⟩
      ⟨[("a", [1]), ("b", [2])], [("a", [9])]⟩).state.get .aws).keys ∧
    ((moveHandler
      ⟨false, false, fun i p => decide (i = 0 ∧ p = Step.closeWriter), fun _ => some [1]⟩
      ⟨[("a", [1, 2])], []⟩).state.get .gcp).read "a" = some [1] :=
  ⟨(moveHandler_writer_failure
      ⟨false, false, fun i p => decide (i = 0 ∧ p = Step.newWriter), fun _ => none⟩
      ⟨[("a", [1]), ("b", [2])], [("a", [9])]⟩ (by decide) (by decide) [] ["b"] "a"
      (by decide) .newWriter (Or.inl rfl) (by decide)).1,
   (moveHandler_writer_failure
      ⟨false, false, fun i p => decide (i = 0 ∧ p = Step.newWriter), fun _ => none⟩
      ⟨[("a", [1]), ("b", [2])], [("a", [9])]⟩ (by decide) (by decide) [] ["b"] "a"
      (by decide) .newWriter (Or.inl rfl) (by decide)).2.1,
   (moveHandler_writer_failure
      ⟨false, false, fun i p => decide (i = 0 ∧ p = Step.closeWriter), fun _ => some [1]⟩
      ⟨[("a", [1, 2])], []⟩ (by decide) (by decide) [] [] "a"
      (by decide) .closeWriter (Or.inr (Or.inr rfl)) (by decide)).2.2.2.2.1 rfl⟩

theorem Bucket.eq_nil_of_read_none (b : Bucket) (h : ∀ k, b.read k = none) : b = [] := by
  cases b with
  | nil => rfl
  | cons e b =>
    obtain ⟨k, v⟩ := e
    have := h k
    rw [Bucket.read_cons] at this
    simp at this

theorem moveAll_all_src (a b : Store) (h : a ≠ b) (st : State) :
    (moveAll a b (st.get a).keys st).get a = [] := by
  apply Bucket.eq_nil_of_read_none
  intro k
  rw [moveAll_src_read a b h]
  by_cases hk : k ∈ (st.get a).keys
  · simp [hk]
  · simp only [hk, if_false]
    exact (Bucket.read_eq_none_iff _ _).2 hk

theorem moveAll_all_dst_read (a b : Store) (h : a ≠ b) (st : State) (k : Key) :
    ((moveAll a b (st.get a).keys st).get b).read k
      = (match (st.get a).read k with
          | some v => some v
          | none => (st.get b).read k) := by
  rw [moveAll_dst_read a b h]
  by_cases hk : k ∈ (st.get a).keys
  · simp [hk]
  · simp only [hk, if_false]
    rw [(Bucket.read_eq_none_iff _ _).2 hk]

/-- C6: when the AWS listing is shorter than the GCP listing the direction is reversed
(GCP is the source), and after a request whose calls all succeed the AWS bucket holds
exactly the keys of both original buckets, the GCP bucket is empty, every key that was
not in the GCP bucket keeps its bytes, and every migrated key has the bytes GCP held. -/
theorem moveHandler_reversed_direction (env : Env) (st : State)
    (hlt : st.aws.keys.length < st.gcp.keys.length)
    (hok : ∀ e ∈ (moveHandler env st).trace, e.ok = true) :
    sourceOf st = .gcp ∧ destinationOf st = .aws ∧
    (∀ k, k ∈ (moveHandler env st).state.aws.keys ↔ k ∈ st.aws.keys ∨ k ∈ st.gcp.keys) ∧
    (moveHandler env st).state.gcp = [] ∧
    (∀ k, k ∉ st.gcp.keys → (moveHandler env st).state.aws.read k = st.aws.read k) ∧
    (∀ k, k ∈ st.gcp.keys → (moveHandler env st).state.aws.read k = st.gcp.read k) := by
  rcases direction_cases st with ⟨_, _, _, hle⟩ | ⟨h1, h2, h3, _⟩
  · omega
  have hst : (moveHandler env st).state = moveAll .gcp .aws (st.get .gcp).keys st := by
    rw [moveHandler_of_all_ok env st hok, h1, h2, h3]
    rfl
  have hne : Store.gcp ≠ Store.aws := by decide
  have hread : ∀ k, (moveHandler env st).state.aws.read k
      = (match st.gcp.read k with
          | some v => some v
          | none => st.aws.read k) := by
    intro k
    rw [hst]
    exact moveAll_all_dst_read .gcp .aws hne st k
  refine ⟨h1, h2, ?_, ?_, ?_, ?_⟩
  · intro k
    rw [← Bucket.read_isSome_iff, ← Bucket.read_isSome_iff, ← Bucket.read_isSome_iff, hread]
    cases st.gcp.read k <;> simp
  · rw [hst]
    exact moveAll_all_src .gcp .aws hne st
  · intro k hk
    rw [hread, (Bucket.read_eq_none_iff _ _).2 hk]
  · intro k hk
    rw [hread]
    rw [← Bucket.read_isSome_iff] at hk
    cases hr : st.gcp.read k with
    | none => rw [hr] at hk; exact absurd hk (by simp)
    | some v => rfl

/-- Witness for C6: AWS {x} and GCP {y, z} end with AWS {x, y, z} and GCP {}. -/
theorem moveHandler_reversed_direction_witness :
    (sourceOf ⟨[("x", [1])], [("y", [2]), ("z", [3])]⟩ = .gcp ∧
      (moveHandler Env.healthy ⟨[("x", [1])], [("y", [2]), ("z", [3])]⟩).state.gcp = []) ∧
    (moveHandler Env.healthy ⟨[("x", [1])], [("y", [2]), ("z", [3])]⟩).state
      = ⟨[("x", [1]), ("y", [2]), ("z", [3])], []⟩ :=
  ⟨⟨(moveHandler_reversed_direction Env.healthy ⟨[("x", [1])], [("y", [2]), ("z", [3])]⟩
      (by decide) (by decide)).1,
    (moveHandler_reversed_direction Env.healthy ⟨[("x", [1])], [("y", [2]), ("z", [3])]⟩
      (by decide) (by decide)).2.2.2.1⟩, by decide⟩

theorem migratedCount_append (xs ys : List Event) :
    migratedCount (xs ++ ys) = migratedCount xs + migratedCount ys := by
  simp [migratedCount, List.filter_append]

theorem migratedCount_okPlan (src dst : Store) (files : List Key) :
    migratedCount (okPlan src dst files) = files.length := by
  induction files with
  | nil => rfl
  | cons k ks ih =>
    rw [okPlan, migratedCount_append, ih]
    have : migratedCount (okTrace src dst k) = 1 := by
      simp [migratedCount, okTrace, stepsBefore, stepEvent, List.filter]
    rw [this, List.length_cons]
    omega

/-- Counterexample to C7 as stated: two fully successful requests that migrate three keys
from AWS and two keys from GCP give the same answer, so no count and no direction can be
read off the answer. -/
theorem moveHandler_count_counterexample :
    (moveHandler Env.healthy ⟨[("a", [1]), ("b", [2]), ("c", [3])], []⟩).response
      = (moveHandler Env.healthy ⟨[("x", [1])], [("y", [2]), ("z", [3])]⟩).response ∧
    ¬ ∃ report : Response → Nat × Store,
      report (moveHandler Env.healthy ⟨[("a", [1]), ("b", [2]), ("c", [3])], []⟩).response
        = (3, Store.aws) ∧
      report (moveHandler Env.healthy ⟨[("x", [1])], [("y", [2]), ("z", [3])]⟩).response
        = (2, Store.gcp) := by
  have h : (moveHandler Env.healthy ⟨[("a", [1]), ("b", [2]), ("c", [3])], []⟩).response
      = (moveHandler Env.healthy ⟨[("x", [1])], [("y", [2]), ("z", [3])]⟩).response := by
    decide
  refine ⟨h, ?_⟩
  rintro ⟨report, h1, h2⟩
  rw [h, h2] at h1
  exact absurd h1 (by decide)

/-- C7 (as amended): on a request whose calls all succeed the answer is the redirect to
"/" and nothing else; the number of keys migrated (the successful deletes of the log)
is the length of the chosen source listing, and every call for a key addresses the
chosen source or destination. -/
theorem moveHandler_success_count (env : Env) (st : State)
    (hok : ∀ e ∈ (moveHandler env st).trace, e.ok = true) :
    (moveHandler env st).response = .redirect "/" StatusSeeOther ∧
    migratedCount (moveHandler env st).trace = (sourceFilesOf st).length ∧
    (∀ e ∈ (moveHandler env st).trace, ∀ q s k, e.op = Op.step q s k →
      s = stepTarget (sourceOf st) (destinationOf st) q) := by
  rw [moveHandler_of_all_ok env st hok]
  refine ⟨rfl, ?_, ?_⟩
  · simp only
    rw [migratedCount_append, migratedCount_okPlan]
    simp [migratedCount, listed, List.filter]
  · intro e he q s k hop
    simp only at he
    rcases List.mem_append.1 he with he | he
    · simp only [listed, List.mem_cons, List.mem_singleton, List.not_mem_nil, or_false] at he
      rcases he with rfl | rfl <;> simp at hop
    · rw [mem_okPlan] at he
      obtain ⟨k3, _, he⟩ := he
      rw [mem_okTrace] at he
      obtain ⟨q3, rfl⟩ := he
      simp only [stepEvent, Op.step.injEq] at hop
      rw [← hop.1, hop.2.1]

/-- Witness for C7 (as amended): source {a, b, c} and an empty destination: three keys are
migrated and the answer is the redirect. -/
theorem moveHandler_success_count_witness :
    (moveHandler Env.healthy ⟨[("a", [1]), ("b", [2]), ("c", [3])], []⟩).response
      = .redirect "/" StatusSeeOther ∧
    migratedCount (moveHandler Env.healthy ⟨[("a", [1]), ("b", [2]), ("c", [3])], []⟩).trace
      = 3 :=
  ⟨(moveHandler_success_count Env.healthy ⟨[("a", [1]), ("b", [2]), ("c", [3])], []⟩
      (by decide)).1,
   (moveHandler_success_count Env.healthy ⟨[("a", [1]), ("b", [2]), ("c", [3])], []⟩
      (by decide)).2.1⟩

theorem moveHandler_healthy (st : State) (hA : st.aws.keys.Nodup) (hG : st.gcp.keys.Nodup) :
    moveHandler Env.healthy st
      = ⟨moveAll (sourceOf st) (destinationOf st) (sourceFilesOf st) st,
          listed ++ okPlan (sourceOf st) (destinationOf st) (sourceFilesOf st),
          .redirect "/" StatusSeeOther⟩ :=
  moveHandler_no_fault Env.healthy st hA hG rfl rfl (fun _ _ _ => rfl)

/-- Counterexample to C5 as stated: after the fully successful request from {a, b, c}
and {}, a second request chooses the three keys now in GCP as its source listing and
moves them back, so the stores change. -/
theorem moveHandler_second_run_counterexample :
    (moveHandler Env.healthy ⟨[("a", [1]), ("b", [2]), ("c", [3])], []⟩).response
      = .redirect "/" StatusSeeOther ∧
    (moveHandler Env.healthy ⟨[("a", [1]), ("b", [2]), ("c", [3])], []⟩).state
      = ⟨[], [("a", [1]), ("b", [2]), ("c", [3])]⟩ ∧
    sourceFilesOf (moveHandler Env.healthy ⟨[("a", [1]), ("b", [2]), ("c", [3])], []⟩).state
      = ["a", "b", "c"] ∧
    migratedCount (moveHandler Env.healthy
      (moveHandler Env.healthy ⟨[("a", [1]), ("b", [2]), ("c", [3])], []⟩).state).trace = 3 ∧
    (moveHandler Env.healthy
      (moveHandler Env.healthy ⟨[("a", [1]), ("b", [2]), ("c", [3])], []⟩).state).state
      ≠ (moveHandler Env.healthy ⟨[("a", [1]), ("b", [2]), ("c", [3])], []⟩).state := by
  decide

/-- C5 (as amended): after a request whose calls all succeed the source is empty, and a
second request started at once in which no call fails reports no error and takes the
listing of the first request's destination as its source listing. That listing is empty,
so that nothing is transferred and both stores stay as they are, exactly when both stores
were empty before the first request; otherwise the second request moves every object
back: the first request's destination ends empty and its source holds every object the
destination held. -/
theorem moveHandler_second_run (env : Env) (st : State)
    (hA : st.aws.keys.Nodup) (hG : st.gcp.keys.Nodup)
    (hok : ∀ e ∈ (moveHandler env st).trace, e.ok = true) :
    (moveHandler env st).state.get (sourceOf st) = [] ∧
    sourceFilesOf (moveHandler env st).state
      = ((moveHandler env st).state.get (destinationOf st)).keys ∧
    (sourceFilesOf (moveHandler env st).state = [] ↔ st.aws = [] ∧ st.gcp = []) ∧
    (sourceFilesOf (moveHandler env st).state = [] →
      (moveHandler Env.healthy (moveHandler env st).state).state = (moveHandler env st).state) ∧
    (moveHandler Env.healthy (moveHandler env st).state).response
      = .redirect "/" StatusSeeOther ∧
    (moveHandler Env.healthy (moveHandler env st).state).state.get (destinationOf st) = [] ∧
    (∀ k, ((moveHandler Env.healthy (moveHandler env st).state).state.get (sourceOf st)).read k
      = ((moveHandler env st).state.get (destinationOf st)).read k) := by
  have hne := source_ne_destination st
  have hst1 : (moveHandler env st).state
      = moveAll (sourceOf st) (destinationOf st) (st.get (sourceOf st)).keys st := by
    rw [moveHandler_of_all_ok env st hok, sourceFilesOf_eq]
  generalize (moveHandler env st).state = st1 at hst1 ⊢
  have hnd0 : ∀ s, (st.get s).keys.Nodup := by
    intro s; cases s
    · exact hA
    · exact hG
  have hnd1 : ∀ s, (st1.get s).keys.Nodup := by
    rw [hst1]; exact moveAll_nodup _ _ _ _ hnd0
  have hsrc1 : st1.get (sourceOf st) = [] := by
    rw [hst1]; exact moveAll_all_src _ _ hne st
  have hdst1 : ∀ k, (st1.get (destinationOf st)).read k
      = (match (st.get (sourceOf st)).read k with
          | some v => some v
          | none => (st.get (destinationOf st)).read k) := by
    intro k; rw [hst1]; exact moveAll_all_dst_read _ _ hne st k
  -- the direction of the second request
  have hdir1 : (sourceOf st1 = destinationOf st ∧ destinationOf st1 = sourceOf st) ∨
      (sourceFilesOf st1 = [] ∧ (st1.get (destinationOf st)).keys = []) := by
    rcases direction_cases st with ⟨h1, h2, _, _⟩ | ⟨h1, h2, _, _⟩
    · rw [h1] at hsrc1
      have haws : st1.aws = [] := hsrc1
      rcases direction_cases st1 with ⟨_, _, g3, g4⟩ | ⟨g1, g2, _, _⟩
      · right
        rw [haws] at g4 g3
        have : st1.gcp.keys = [] := List.length_eq_zero.1 (Nat.le_zero.1 g4)
        exact ⟨g3, by rw [h2]; exact this⟩
      · left; rw [g1, g2, h1, h2]; exact ⟨rfl, rfl⟩
    · rw [h1] at hsrc1
      have hgcp : st1.gcp = [] := hsrc1
      rcases direction_cases st1 with ⟨g1, g2, _, _⟩ | ⟨_, _, _, g4⟩
      · left; rw [g1, g2, h1, h2]; exact ⟨rfl, rfl⟩
      · rw [hgcp] at g4
        exact absurd g4 (by simp [Bucket.keys])
  have hfiles1 : sourceFilesOf st1 = (st1.get (destinationOf st)).keys := by
    rcases hdir1 with ⟨g1, _⟩ | ⟨g1, g2⟩
    · rw [sourceFilesOf_eq, g1]
    · rw [g1, g2]
  have hst2 : (moveHandler Env.healthy st1).state
      = moveAll (destinationOf st) (sourceOf st) (st1.get (destinationOf st)).keys st1 := by
    rw [moveHandler_healthy st1 (hnd1 .aws) (hnd1 .gcp)]
    simp only
    rcases hdir1 with ⟨g1, g2⟩ | ⟨g1, g2⟩
    · rw [sourceFilesOf_eq, g1, g2]
    · rw [g1, g2]; rfl
  refine ⟨hsrc1, hfiles1, ?_, ?_, ?_, ?_, ?_⟩
  · rw [hfiles1, Bucket.keys_eq_nil]
    constructor
    · intro hnil
      have hboth : ∀ s, st.get s = [] := by
        have hsrc0 : st.get (sourceOf st) = [] := by
          apply Bucket.eq_nil_of_read_none
          intro k
          have := hdst1 k
          rw [hnil] at this
          cases hr : (st.get (sourceOf st)).read k with
          | none => rfl
          | some v => rw [hr] at this; exact absurd this (by simp [Bucket.read_nil])
        have hdst0 : st.get (destinationOf st) = [] := by
          apply Bucket.eq_nil_of_read_none
          intro k
          have := hdst1 k
          rw [hnil, hsrc0] at this
          simpa [Bucket.read_nil] using this.symm
        intro s
        rcases direction_cases st with ⟨h1, h2, _, _⟩ | ⟨h1, h2, _, _⟩ <;>
          rw [h1] at hsrc0 <;> rw [h2] at hdst0 <;> cases s <;> assumption
      exact ⟨hboth .aws, hboth .gcp⟩
    · rintro ⟨ha, hg⟩
      apply Bucket.eq_nil_of_read_none
      intro k
      have hboth : ∀ s, st.get s = [] := by
        intro s; cases s
        · exact ha
        · exact hg
      rw [hdst1 k, hboth, hboth]
      rfl
  · intro hnil
    rw [hst2, ← hfiles1, hnil]
    rfl
  · rw [moveHandler_healthy st1 (hnd1 .aws) (hnd1 .gcp)]
  · rw [hst2]
    exact moveAll_all_src _ _ (Ne.symm hne) st1
  · intro k
    rw [hst2, moveAll_all_dst_read _ _ (Ne.symm hne) st1 k, hsrc1]
    cases (st1.get (destinationOf st)).read k <;> rfl

/-- Witness for C5 (as amended): the second request after the fully successful request
from {a, b, c} and {} reports no error and empties GCP again. -/
theorem moveHandler_second_run_witness :
    (moveHandler Env.healthy
      (moveHandler Env.healthy ⟨[("a", [1]), ("b", [2]), ("c", [3])], []⟩).state).response
        = .redirect "/" StatusSeeOther ∧
    (moveHandler Env.healthy
      (moveHandler Env.healthy ⟨[("a", [1]), ("b", [2]), ("c", [3])], []⟩).state).state.get .gcp
        = [] :=
  ⟨(moveHandler_second_run Env.healthy ⟨[("a", [1]), ("b", [2]), ("c", [3])], []⟩
      (by decide) (by decide) (by decide)).2.2.2.2.1,
   (moveHandler_second_run Env.healthy ⟨[("a", [1]), ("b", [2]), ("c", [3])], []⟩
      (by decide) (by decide) (by decide)).2.2.2.2.2.1⟩

/-! ## Properties of the readiness gates -/

theorem retry_waiting {σ : Type} (stop : Nat → Bool) (operation : Nat → σ → Outcome × σ)
    (N start : Nat) (hstop : ∀ i < N, stop (start + i) = false)
    (hfail : ∀ i < N, ∀ s, ((operation (start + i) s).1).isRetryable = true) (s : σ)
    (fuel : Nat) (hfuel : fuel ≤ N) :
    (retry stop operation fuel start s).1 = .running ∧
    (retry stop operation fuel start s).2.1.length = fuel ∧
    ∀ o ∈ (retry stop operation fuel start s).2.1, o.isRetryable = true := by
  induction fuel generalizing N start s with
  | zero => exact ⟨rfl, rfl, by simp [retry]⟩
  | succ f ih =>
    have h0 := hfail 0 (by omega) s
    have hs0 := hstop 0 (by omega)
    simp only [Nat.add_zero] at h0 hs0
    cases hop : operation start s with
    | mk o s1 =>
      rw [hop] at h0
      cases o with
      | retryable e =>
        obtain ⟨h1, h2, h3⟩ := ih (N - 1) (start + 1)
          (fun i hi => by
            have := hstop (i + 1) (by omega)
            rwa [show start + (i + 1) = start + 1 + i by omega] at this)
          (fun i hi s => by
            have := hfail (i + 1) (by omega) s
            rwa [show start + (i + 1) = start + 1 + i by omega] at this) s1 (by omega)
        refine ⟨by simp [retry, hop, hs0, h1], by simp [retry, hop, hs0, h2], ?_⟩
        intro o ho
        simp only [retry, hop, hs0, Bool.false_eq_true, if_false, List.mem_cons] at ho
        rcases ho with rfl | ho
        · rfl
        · exact h3 o ho
      | success => simp [Outcome.isRetryable] at h0
      | permanent e => simp [Outcome.isRetryable] at h0
      | fatal e => simp [Outcome.isRetryable] at h0

theorem retry_after_failures {σ : Type} (stop : Nat → Bool)
    (operation : Nat → σ → Outcome × σ) (N start : Nat) (o : Outcome) (final : σ)
    (hstop : ∀ i < N, stop (start + i) = false)
    (hfail : ∀ i < N, ∀ s, ((operation (start + i) s).1).isRetryable = true)
    (ho : o.isRetryable = false)
    (hend : ∀ s, operation (start + N) s = (o, final)) (s : σ) (fuel : Nat) (hfuel : N < fuel) :
    ∃ log, retry stop operation fuel start s = (o.status, log ++ [o], final)
      ∧ log.length = N ∧ ∀ o2 ∈ log, o2.isRetryable = true := by
  induction N generalizing start s fuel with
  | zero =>
    obtain ⟨f, rfl⟩ : ∃ f, fuel = f + 1 := ⟨fuel - 1, by omega⟩
    refine ⟨[], ?_, rfl, by simp⟩
    have := hend s
    simp only [Nat.add_zero] at this
    cases o with
    | retryable e => simp [Outcome.isRetryable] at ho
    | success => simp [retry, this, Outcome.status]
    | permanent e => simp [retry, this, Outcome.status]
    | fatal e => simp [retry, this, Outcome.status]
  | succ N ih =>
    have h0 := hfail 0 (by omega) s
    have hs0 := hstop 0 (by omega)
    simp only [Nat.add_zero] at h0 hs0
    obtain ⟨e, s1, hop⟩ : ∃ e s1, operation start s = (.retryable e, s1) := by
      cases hop : operation start s with
      | mk o s1 =>
        rw [hop] at h0
        cases o with
        | retryable e => exact ⟨e, s1, rfl⟩
        | success => simp [Outcome.isRetryable] at h0
        | permanent e => simp [Outcome.isRetryable] at h0
        | fatal e => simp [Outcome.isRetryable] at h0
    obtain ⟨f, rfl⟩ : ∃ f, fuel = f + 1 := ⟨fuel - 1, by omega⟩
    obtain ⟨log, hlog, hlen, hall⟩ := ih (start + 1)
      (fun i hi => by
        have := hstop (i + 1) (by omega)
        rwa [show start + (i + 1) = start + 1 + i by omega] at this)
      (fun i hi s => by
        have := hfail (i + 1) (by omega) s
        rwa [show start + (i + 1) = start + 1 + i by omega] at this)
      (fun s => by
        have := hend s
        rwa [show start + (N + 1) = start + 1 + N by omega] at this) s1 f (by omega)
    refine ⟨.retryable e :: log, ?_, by simp [hlen], ?_⟩
    · simp [retry, hop, hs0, hlog]
    · intro o2 ho2
      rcases List.mem_cons.1 ho2 with rfl | ho2
      · rfl
      · exact hall o2 ho2

theorem awsOperation_waits (a : AwsAttempt) (b : Option Handle)
    (h : (∃ h, a.openBucket = .ok h) ∧ (a.isAccessible.2).isSome = true) :
    ((awsOperation a b).1).isRetryable = true := by
  obtain ⟨⟨h, hopen⟩, hacc⟩ := h
  cases hia : a.isAccessible with
  | mk acc err =>
    rw [hia] at hacc
    simp only [awsOperation, hopen, hia]
    cases err with
    | none => simp at hacc
    | some e => rfl

theorem gcpOperation_waits (a : GcpAttempt) (b : Option Handle)
    (h : (∃ path, a.expand = .ok path) ∧
      (a.statNotExist.isSome = true ∨ ∃ e, a.openBucket = .err e)) :
    ((gcpOperation a b).1).isRetryable = true := by
  obtain ⟨⟨path, hexp⟩, hwhy⟩ := h
  simp only [gcpOperation, hexp]
  cases hstat : a.statNotExist with
  | some e => rfl
  | none =>
    rcases hwhy with hwhy | ⟨e, hwhy⟩
    · rw [hstat] at hwhy; simp at hwhy
    · simp only [hwhy]; rfl

theorem gcpOperation_unreachable (a : GcpAttempt) (b : Option Handle) (h : Handle)
    (accessible : Bool) (err : Option String)
    (ha : (∃ path, a.expand = .ok path) ∧ a.statNotExist = none ∧ a.openBucket = .ok h ∧
      a.isAccessible = (accessible, err) ∧ (err.isSome = true ∨ accessible = false)) :
    gcpOperation a b = (.permanent "bucket was not accessible with credentials", some h) := by
  obtain ⟨⟨path, hexp⟩, hstat, hopen, hacc, hwhy⟩ := ha
  simp only [gcpOperation, hexp, hstat, hopen, hacc]
  rcases hwhy with hwhy | hwhy
  · simp [hwhy]
  · simp [hwhy]

/-- Counterexample to C9 as stated: the reachability probe fails on the first attempt and
would succeed on the second, yet the GCP gate (probe error) and the AWS gate (probe
reports not reachable) return a permanent error after the first attempt. -/
theorem gate_probe_failure_counterexample :
    gcpGate neverStop
      (fun n => if n = 0 then ⟨.ok "adc.json", none, .ok 7, (false, some "denied")⟩
        else ⟨.ok "adc.json", none, .ok 7, (true, none)⟩) 2
      = (.returned (some "bucket was not accessible with credentials"),
          [.permanent "bucket was not accessible with credentials"], some 7) ∧
    awsGate neverStop
      (fun n => if n = 0 then ⟨.ok 7, (false, none)⟩ else ⟨.ok 7, (true, none)⟩) 2
      = (.returned (some "bucket was not accessible with credentials"),
          [.permanent "bucket was not accessible with credentials"], some 7) := by
  decide

/-- C9 (as amended): for every N, let the back-off policy not give up during the first N
failures, let each of the first N attempts of the AWS gate open the bucket and get an
error from `IsAccessible`, and let each of the first N attempts of the GCP gate find the
credentials file missing or fail to open the bucket. Then neither gate has returned
after N or fewer attempts, and the log holds one retryable failure per attempt. If in
attempt N+1 the bucket opens (for GCP: the file exists and the bucket opens) and
`IsAccessible` reports reachable, the gate returns success with the handle of attempt
N+1 after exactly N retryable failures. If instead in attempt N+1 `IsAccessible`
reports not reachable (AWS), or returns an error or reports not reachable (GCP), the gate
ends at that attempt with the permanent error, after exactly N retryable failures. -/
theorem gate_ready_after_failures (N : Nat) (stop : Nat → Bool)
    (hstop : ∀ n < N, stop n = false)
    (aws : Nat → AwsAttempt) (gcp : Nat → GcpAttempt)
    (hawsFail : ∀ n < N, (∃ h, (aws n).openBucket = .ok h) ∧
      ((aws n).isAccessible.2).isSome = true)
    (hgcpFail : ∀ n < N, (∃ path, (gcp n).expand = .ok path) ∧
      ((gcp n).statNotExist.isSome = true ∨ ∃ e, (gcp n).openBucket = .err e)) :
    (∀ fuel, fuel ≤ N →
      (awsGate stop aws fuel).1 = .running ∧ (awsGate stop aws fuel).2.1.length = fuel ∧
      ∀ o ∈ (awsGate stop aws fuel).2.1, o.isRetryable = true) ∧
    (∀ fuel, fuel ≤ N →
      (gcpGate stop gcp fuel).1 = .running ∧ (gcpGate stop gcp fuel).2.1.length = fuel ∧
      ∀ o ∈ (gcpGate stop gcp fuel).2.1, o.isRetryable = true) ∧
    (∀ ha, aws N = ⟨.ok ha, (true, none)⟩ →
      ∀ fuel, N < fuel → ∃ log, awsGate stop aws fuel
          = (.returned none, log ++ [.success], some ha)
        ∧ log.length = N ∧ ∀ o ∈ log, o.isRetryable = true) ∧
    (∀ hg, ((∃ path, (gcp N).expand = .ok path) ∧ (gcp N).statNotExist = none ∧
        (gcp N).openBucket = .ok hg ∧ (gcp N).isAccessible = (true, none)) →
      ∀ fuel, N < fuel → ∃ log, gcpGate stop gcp fuel
          = (.returned none, log ++ [.success], some hg)
        ∧ log.length = N ∧ ∀ o ∈ log, o.isRetryable = true) ∧
    (∀ h, aws N = ⟨.ok h, (false, none)⟩ →
      ∀ fuel, N < fuel → ∃ log, awsGate stop aws fuel
          = (.returned (some "bucket was not accessible with credentials"),
              log ++ [.permanent "bucket was not accessible with credentials"], some h)
        ∧ log.length = N ∧ ∀ o ∈ log, o.isRetryable = true) ∧
    (∀ h accessible err, ((∃ path, (gcp N).expand = .ok path) ∧ (gcp N).statNotExist = none ∧
        (gcp N).openBucket = .ok h ∧ (gcp N).isAccessible = (accessible, err) ∧
        (err.isSome = true ∨ accessible = false)) →
      ∀ fuel, N < fuel → ∃ log, gcpGate stop gcp fuel
          = (.returned (some "bucket was not accessible with credentials"),
              log ++ [.permanent "bucket was not accessible with credentials"], some h)
        ∧ log.length = N ∧ ∀ o ∈ log, o.isRetryable = true) := by
  have hstop0 : ∀ i < N, stop (0 + i) = false := by
    intro i hi; rw [Nat.zero_add]; exact hstop i hi
  have hawsW : ∀ i < N, ∀ s, ((awsOperation (aws (0 + i)) s).1).isRetryable = true := by
    intro i hi s; rw [Nat.zero_add]; exact awsOperation_waits _ _ (hawsFail i hi)
  have hgcpW : ∀ i < N, ∀ s, ((gcpOperation (gcp (0 + i)) s).1).isRetryable = true := by
    intro i hi s; rw [Nat.zero_add]; exact gcpOperation_waits _ _ (hgcpFail i hi)
  refine ⟨?_, ?_, ?_, ?_, ?_, ?_⟩
  · intro fuel hfuel
    exact retry_waiting stop (fun n b => awsOperation (aws n) b) N 0 hstop0 hawsW none fuel hfuel
  · intro fuel hfuel
    exact retry_waiting stop (fun n b => gcpOperation (gcp n) b) N 0 hstop0 hgcpW none fuel hfuel
  · intro ha hok fuel hfuel
    exact retry_after_failures stop (fun n b => awsOperation (aws n) b) N 0 .success (some ha)
      hstop0 hawsW rfl (fun s => by rw [Nat.zero_add]; simp [awsOperation, hok]) none fuel hfuel
  · intro hg hok fuel hfuel
    obtain ⟨⟨path, hexp⟩, hstat, hopen, hacc⟩ := hok
    exact retry_after_failures stop (fun n b => gcpOperation (gcp n) b) N 0 .success (some hg)
      hstop0 hgcpW rfl
      (fun s => by rw [Nat.zero_add]; simp [gcpOperation, hexp, hstat, hopen, hacc]) none fuel
      hfuel
  · intro h hbad fuel hfuel
    exact retry_after_failures stop (fun n b => awsOperation (aws n) b) N 0
      (.permanent "bucket was not accessible with credentials") (some h)
      hstop0 hawsW rfl (fun s => by rw [Nat.zero_add]; simp [awsOperation, hbad]) none fuel hfuel
  · intro h accessible err hbad fuel hfuel
    exact retry_after_failures stop (fun n b => gcpOperation (gcp n) b) N 0
      (.permanent "bucket was not accessible with credentials") (some h)
      hstop0 hgcpW rfl
      (fun s => by rw [Nat.zero_add]; exact gcpOperation_unreachable _ s h accessible err hbad)
      none fuel hfuel

/-- Witness for C9 (as amended): two attempts without credentials, then a reachable bucket;
after two attempts both gates are still retrying, and the third attempt ends them. -/
theorem gate_ready_after_failures_witness :
    ((awsGate neverStop
        (fun n => if n < 2 then ⟨.ok 1, (false, some "no credentials")⟩
          else ⟨.ok 1, (true, none)⟩) 2).1 = .running ∧
      (gcpGate neverStop
        (fun n => if n < 2 then
            ⟨.ok "adc.json", some "file does not exist", .ok 2, (true, none)⟩
          else ⟨.ok "adc.json", none, .ok 2, (true, none)⟩) 2).1 = .running) ∧
    awsGate neverStop
      (fun n => if n < 2 then ⟨.ok 1, (false, some "no credentials")⟩
        else ⟨.ok 1, (true, none)⟩) 3
      = (.returned none,
          [.retryable "no credentials", .retryable "no credentials", .success], some 1) ∧
    gcpGate neverStop
      (fun n => if n < 2 then ⟨.ok "adc.json", some "file does not exist", .ok 2, (true, none)⟩
        else ⟨.ok "adc.json", none, .ok 2, (false, none)⟩) 3
      = (.returned (some "bucket was not accessible with credentials"),
          [.retryable "file does not exist", .retryable "file does not exist",
            .permanent "bucket was not accessible with credentials"], some 2) :=
  ⟨⟨((gate_ready_after_failures 2 neverStop (fun _ _ => rfl)
        (fun n => if n < 2 then ⟨.ok 1, (false, some "no credentials")⟩
          else ⟨.ok 1, (true, none)⟩)
        (fun n => if n < 2 then
            ⟨.ok "adc.json", some "file does not exist", .ok 2, (true, none)⟩
          else ⟨.ok "adc.json", none, .ok 2, (true, none)⟩)
        (fun n hn => ⟨⟨1, by simp [hn]⟩, by simp [hn]⟩)
        (fun n hn => ⟨⟨"adc.json", by simp [hn]⟩, Or.inl (by simp [hn])⟩)).1 2 (by decide)).1,
    ((gate_ready_after_failures 2 neverStop (fun _ _ => rfl)
        (fun n => if n < 2 then ⟨.ok 1, (false, some "no credentials")⟩
          else ⟨.ok 1, (true, none)⟩)
        (fun n => if n < 2 then
            ⟨.ok "adc.json", some "file does not exist", .ok 2, (true, none)⟩
          else ⟨.ok "adc.json", none, .ok 2, (true, none)⟩)
        (fun n hn => ⟨⟨1, by simp [hn]⟩, by simp [hn]⟩)
        (fun n hn => ⟨⟨"adc.json", by simp [hn]⟩, Or.inl (by simp [hn])⟩)).2.1 2
          (by decide)).1⟩,
   by decide, by decide⟩

/-- Counterexample to C10 as stated: with the handle open, a probe that reports not
reachable (AWS and GCP) or that returns an error (GCP) makes the operation return
`backoff.Permanent`, not an ordinary error. -/
theorem probe_classification_counterexample :
    (awsOperation ⟨.ok 7, (false, none)⟩ none).1
      = .permanent "bucket was not accessible with credentials" ∧
    (gcpOperation ⟨.ok "adc.json", none, .ok 7, (false, some "denied")⟩ none).1
      = .permanent "bucket was not accessible with credentials" ∧
    (gcpOperation ⟨.ok "adc.json", none, .ok 7, (false, none)⟩ none).1
      = .permanent "bucket was not accessible with credentials" := by
  decide

/-- C10 (as amended): with the handle open, the AWS operation returns an ordinary error
when `IsAccessible` returns an error, and returns `backoff.Permanent` when `IsAccessible`
reports not reachable without an error; the GCP operation returns `backoff.Permanent`
when `IsAccessible` returns an error or reports not reachable. At every attempt `n` of
every script and for every back-off policy, the ordinary error makes `backoff.Retry` run
attempt `n + 1` unless the policy gives up after attempt `n`, and the permanent error
makes it return at attempt `n`. For the gates: after any number of retryable failures
the gate has not returned, and a permanent error after `n` retryable failures ends the
gate at attempt `n + 1`. -/
theorem probe_classification (h : Handle) (accessible : Bool) (e path : String)
    (b : Option Handle) (stop : Nat → Bool) (aws : Nat → AwsAttempt)
    (gcp : Nat → GcpAttempt) (n fuel : Nat) :
    awsOperation ⟨.ok h, (accessible, some e)⟩ b = (.retryable e, some h) ∧
    awsOperation ⟨.ok h, (false, none)⟩ b
      = (.permanent "bucket was not accessible with credentials", some h) ∧
    gcpOperation ⟨.ok path, none, .ok h, (accessible, some e)⟩ b
      = (.permanent "bucket was not accessible with credentials", some h) ∧
    gcpOperation ⟨.ok path, none, .ok h, (false, none)⟩ b
      = (.permanent "bucket was not accessible with credentials", some h) ∧
    (∀ fuel, (awsGate neverStop (fun _ => ⟨.ok h, (accessible, some e)⟩) fuel).1 = .running) ∧
    (∀ fuel, awsGate neverStop (fun _ => ⟨.ok h, (false, none)⟩) (fuel + 1)
      = (.returned (some "bucket was not accessible with credentials"),
          [.permanent "bucket was not accessible with credentials"], some h)) ∧
    (∀ fuel, gcpGate neverStop (fun _ => ⟨.ok path, none, .ok h, (accessible, some e)⟩)
        (fuel + 1)
      = (.returned (some "bucket was not accessible with credentials"),
          [.permanent "bucket was not accessible with credentials"], some h)) ∧
    (∀ fuel, gcpGate neverStop (fun _ => ⟨.ok path, none, .ok h, (false, none)⟩) (fuel + 1)
      = (.returned (some "bucket was not accessible with credentials"),
          [.permanent "bucket was not accessible with credentials"], some h)) ∧
    (aws n = ⟨.ok h, (accessible, some e)⟩ →
      retry stop (fun i s => awsOperation (aws i) s) (fuel + 1) n b
        = if stop n then (.returned (some e), [.retryable e], some h)
          else
            ((retry stop (fun i s => awsOperation (aws i) s) fuel (n + 1) (some h)).1,
              .retryable e ::
                (retry stop (fun i s => awsOperation (aws i) s) fuel (n + 1) (some h)).2.1,
              (retry stop (fun i s => awsOperation (aws i) s) fuel (n + 1) (some h)).2.2)) ∧
    (aws n = ⟨.ok h, (false, none)⟩ →
      retry stop (fun i s => awsOperation (aws i) s) (fuel + 1) n b
        = (.returned (some "bucket was not accessible with credentials"),
            [.permanent "bucket was not accessible with credentials"], some h)) ∧
    (((∃ p, (gcp n).expand = .ok p) ∧ (gcp n).statNotExist = none ∧
        (gcp n).openBucket = .ok h ∧ (gcp n).isAccessible = (accessible, some e)) →
      retry stop (fun i s => gcpOperation (gcp i) s) (fuel + 1) n b
        = (.returned (some "bucket was not accessible with credentials"),
            [.permanent "bucket was not accessible with credentials"], some h)) ∧
    (((∃ p, (gcp n).expand = .ok p) ∧ (gcp n).statNotExist = none ∧
        (gcp n).openBucket = .ok h ∧ (gcp n).isAccessible = (false, none)) →
      retry stop (fun i s => gcpOperation (gcp i) s) (fuel + 1) n b
        = (.returned (some "bucket was not accessible with credentials"),
            [.permanent "bucket was not accessible with credentials"], some h)) ∧
    ((∀ i < n, stop i = false) →
      (∀ i < n, (∃ h2, (aws i).openBucket = .ok h2) ∧ ((aws i).isAccessible.2).isSome = true) →
      (∀ f, f ≤ n → (awsGate stop aws f).1 = .running ∧ (awsGate stop aws f).2.1.length = f) ∧
      (aws n = ⟨.ok h, (false, none)⟩ → ∀ f, n < f → ∃ log, awsGate stop aws f
          = (.returned (some "bucket was not accessible with credentials"),
              log ++ [.permanent "bucket was not accessible with credentials"], some h)
        ∧ log.length = n ∧ ∀ o ∈ log, o.isRetryable = true)) ∧
    ((∀ i < n, stop i = false) →
      (∀ i < n, (∃ p, (gcp i).expand = .ok p) ∧
        ((gcp i).statNotExist.isSome = true ∨ ∃ e2, (gcp i).openBucket = .err e2)) →
      (∀ f, f ≤ n → (gcpGate stop gcp f).1 = .running ∧ (gcpGate stop gcp f).2.1.length = f) ∧
      (∀ acc err, ((∃ p, (gcp n).expand = .ok p) ∧ (gcp n).statNotExist = none ∧
          (gcp n).openBucket = .ok h ∧ (gcp n).isAccessible = (acc, err) ∧
          (err.isSome = true ∨ acc = false)) →
        ∀ f, n < f → ∃ log, gcpGate stop gcp f
          = (.returned (some "bucket was not accessible with credentials"),
              log ++ [.permanent "bucket was not accessible with credentials"], some h)
        ∧ log.length = n ∧ ∀ o ∈ log, o.isRetryable = true)) := by
  refine ⟨rfl, rfl, by simp [gcpOperation], rfl, ?_, ?_, ?_, ?_, ?_, ?_, ?_, ?_, ?_, ?_⟩
  · intro fuel
    exact (retry_waiting neverStop
      (fun _ b => awsOperation ⟨.ok h, (accessible, some e)⟩ b) fuel 0 (fun _ _ => rfl)
      (fun _ _ _ => rfl) none fuel (Nat.le_refl _)).1
  · intro fuel
    simp [awsGate, retry, awsOperation]
  · intro fuel
    simp [gcpGate, retry, gcpOperation]
  · intro fuel
    simp [gcpGate, retry, gcpOperation]
  · intro ha
    by_cases hs : stop n = true
    · simp [retry, awsOperation, ha, hs]
    · simp [retry, awsOperation, ha, hs]
  · intro ha
    simp [retry, awsOperation, ha]
  · rintro ⟨⟨p, hexp⟩, hstat, hopen, hacc⟩
    simp [retry, gcpOperation, hexp, hstat, hopen, hacc]
  · rintro ⟨⟨p, hexp⟩, hstat, hopen, hacc⟩
    simp [retry, gcpOperation, hexp, hstat, hopen, hacc]
  · intro hstop hwait
    have hstop0 : ∀ i < n, stop (0 + i) = false := by
      intro i hi; rw [Nat.zero_add]; exact hstop i hi
    have hW : ∀ i < n, ∀ s, ((awsOperation (aws (0 + i)) s).1).isRetryable = true := by
      intro i hi s; rw [Nat.zero_add]; exact awsOperation_waits _ _ (hwait i hi)
    constructor
    · intro f hf
      obtain ⟨r1, r2, _⟩ := retry_waiting stop (fun i s => awsOperation (aws i) s) n 0 hstop0
        hW none f hf
      exact ⟨r1, r2⟩
    · intro hbad f hf
      exact retry_after_failures stop (fun i s => awsOperation (aws i) s) n 0
        (.permanent "bucket was not accessible with credentials") (some h)
        hstop0 hW rfl (fun s => by rw [Nat.zero_add]; simp [awsOperation, hbad]) none f hf
  · intro hstop hwait
    have hstop0 : ∀ i < n, stop (0 + i) = false := by
      intro i hi; rw [Nat.zero_add]; exact hstop i hi
    have hW : ∀ i < n, ∀ s, ((gcpOperation (gcp (0 + i)) s).1).isRetryable = true := by
      intro i hi s; rw [Nat.zero_add]; exact gcpOperation_waits _ _ (hwait i hi)
    constructor
    · intro f hf
      obtain ⟨r1, r2, _⟩ := retry_waiting stop (fun i s => gcpOperation (gcp i) s) n 0 hstop0
        hW none f hf
      exact ⟨r1, r2⟩
    · intro acc err hbad f hf
      exact retry_after_failures stop (fun i s => gcpOperation (gcp i) s) n 0
        (.permanent "bucket was not accessible with credentials") (some h)
        hstop0 hW rfl
        (fun s => by rw [Nat.zero_add]; exact gcpOperation_unreachable _ s h acc err hbad)
        none f hf

/-- Witness for C10 (as amended): in the second attempt of an AWS script the probe reports
not reachable, and the retry loop returns the permanent error at that attempt; in the
second attempt of another script the probe returns an error and the loop runs a third
attempt. -/
theorem probe_classification_witness :
    retry neverStop
      (fun i s => awsOperation
        ((fun n => if n = 1 then ⟨.ok 7, (false, none)⟩
          else ⟨.ok 7, (true, some "no credentials")⟩) i) s) 3 1 none
      = (.returned (some "bucket was not accessible with credentials"),
          [.permanent "bucket was not accessible with credentials"], some 7) ∧
    awsGate neverStop
      (fun n => if n = 2 then ⟨.ok 7, (true, none)⟩
        else ⟨.ok 7, (false, some "no credentials")⟩) 3
      = (.returned none,
          [.retryable "no credentials", .retryable "no credentials", .success], some 7) :=
  ⟨(probe_classification 7 true "no credentials" "adc.json" none neverStop
      (fun n => if n = 1 then ⟨.ok 7, (false, none)⟩
        else ⟨.ok 7, (true, some "no credentials")⟩)
      (fun _ => ⟨.ok "adc.json", none, .ok 7, (true, none)⟩) 1 2).2.2.2.2.2.2.2.2.2.1 rfl,
   by decide⟩

end WorkloadFoo
